import Mathlib

/-!
Verification of the MAGScore 7.0 Behavioral Signal Resolution Core.

This file gives a shallow embedding of the three resolvers of the core —
`BehaviorEngine.compute_behaviors` (magscore/engine/behavior_engine.py),
`PatternEngine.compute_patterns` (magscore/engine/pattern_engine.py) and
`MatchFlowReconstructor.reconstruct` (magscore/engine/match_flow.py) —
together with the static tables of magscore/engine/definitions.py, and
proves the behavioural properties stated in the specification.

Modelling conventions:
* Python floats are modelled as exact rationals (`ℚ`); `round(x, 3)` is
  modelled as round-half-even to 3 decimal places on the exact value.
* Python dicts are modelled as association lists with distinct keys;
  `dict.get(k, d)` is `lookupD`.  Iteration order of a dict is its
  insertion order, so the static tables are lists in source order.
* Python sets that are only read through membership / cardinality are
  modelled as duplicate-free lists built with `addIfAbsent`.
* The wall-clock read `datetime.utcnow()` inside `compute_behaviors` is
  modelled as an explicit `timestamp` argument.
-/

namespace MagScore

/-- A per-window signal map: signal key ↦ value (Python `Dict[str, float]`). -/
abbrev SignalMap := List (String × ℚ)

/-- The `time_slices` argument: window name ↦ signal map. -/
abbrev TimeSlices := List (String × SignalMap)

/-- `dict.get(k, d)`: first binding of `k`, defaulting to `d`. -/
def lookupD {α : Type} (m : List (String × α)) (k : String) (d : α) : α :=
  (List.lookup k m).getD d

/-- Append `c` unless already present (models `set.add` where only
membership and cardinality of the set are consumed). -/
def addIfAbsent (c : String) (l : List String) : List String :=
  if c ∈ l then l else l ++ [c]

-- =============================================================================
-- definitions.py — constants and static tables
-- =============================================================================

/-- `SIGNAL_ACTIVATION_THRESHOLD = 0.6` (written `mkRat 6 10` so that the
kernel can evaluate threshold comparisons). -/
def SIGNAL_ACTIVATION_THRESHOLD : ℚ := mkRat 6 10

/-- `MIN_REQUIRED_SIGNALS = 2`. -/
def MIN_REQUIRED_SIGNALS : Nat := 2

/-- `PONDERATION_FACTOR = 1.5` (written `mkRat 15 10`, see above). -/
def PONDERATION_FACTOR : ℚ := mkRat 15 10

/-- A static behaviour definition (an entry of `BEHAVIOR_DEFINITIONS`). -/
structure BehaviorDefinition where
  code : String
  name : String
  name_en : String
  category : String
  required_signals : List String
  priority_zone : String
  contradicts : List String
deriving Repr, DecidableEq

def STB_01_DEF : BehaviorDefinition :=
  { code := "STB_01", name := "Effondrement Structurel", name_en := "Structural Collapse"
  , category := "stability"
  , required_signals := ["low_block_drop", "xg_against_spike"]
  , priority_zone := "last_15_min", contradicts := ["STB_02"] }

def STB_02_DEF : BehaviorDefinition :=
  { code := "STB_02", name := "Verrouillage Tactique", name_en := "Tactical Lock"
  , category := "stability"
  , required_signals := ["high_compactness", "successful_low_block"]
  , priority_zone := "global", contradicts := ["STB_01"] }

def INT_01_DEF : BehaviorDefinition :=
  { code := "INT_01", name := "Surge de Pressing", name_en := "Pressing Surge"
  , category := "intensity"
  , required_signals := ["pressing_wave", "high_duel_pressure"]
  , priority_zone := "global", contradicts := ["INT_02"] }

def INT_02_DEF : BehaviorDefinition :=
  { code := "INT_02", name := "Déclin Physique", name_en := "Physical Decline"
  , category := "intensity"
  , required_signals := ["running_distance_drop", "duel_loss_spike"]
  , priority_zone := "last_15_min", contradicts := ["INT_01"] }

def PSY_01_DEF : BehaviorDefinition :=
  { code := "PSY_01", name := "Frustration Active", name_en := "Active Frustration"
  , category := "psychology"
  , required_signals := ["fouls_spike", "protest_pattern"]
  , priority_zone := "last_15_min", contradicts := ["PSY_02"] }

def PSY_02_DEF : BehaviorDefinition :=
  { code := "PSY_02", name := "Résilience", name_en := "Resilience"
  , category := "psychology"
  , required_signals := ["high_defensive_recovery", "late_pressing_effort"]
  , priority_zone := "last_15_min", contradicts := ["PSY_01"] }

/-- `BEHAVIOR_DEFINITIONS`, in dict insertion order. -/
def BEHAVIOR_DEFINITIONS : List BehaviorDefinition :=
  [STB_01_DEF, STB_02_DEF, INT_01_DEF, INT_02_DEF, PSY_01_DEF, PSY_02_DEF]

/-- `CONTRADICTION_PAIRS`. -/
def CONTRADICTION_PAIRS : List (String × String) :=
  [("STB_01", "STB_02"), ("INT_01", "INT_02"), ("PSY_01", "PSY_02")]

/-- `are_behaviors_contradicting`: both codes belong to a registered pair. -/
def are_behaviors_contradicting (code_a code_b : String) : Bool :=
  CONTRADICTION_PAIRS.any (fun p =>
    (code_a == p.1 || code_a == p.2) && (code_b == p.1 || code_b == p.2))

-- =============================================================================
-- behavior_engine.py — data model
-- =============================================================================

/-- A detected behaviour (the per-behaviour dict built by
`compute_behaviors`; fields that are `None` for AMBIGUOUS entries are
`Option`s, and `details` is present only on AMBIGUOUS entries). -/
structure DetectedBehavior where
  code : String
  label : String
  label_en : String
  category : String
  intensity : Option ℚ
  time_slice : Option String
  status : String
  signals_count : Option Nat
  signals_required : Option Nat
  raw_values : Option (List ℚ)
  details : Option (List String)
deriving Repr, DecidableEq

/-- The `meta` block of a `compute_behaviors` result. -/
structure BehaviorMeta where
  source : String
  version : String
  timestamp : String
  signals_processed : Nat
  behaviors_detected : Nat
  time_slices_used : List String
  recency_model : String
deriving Repr, DecidableEq

/-- The full `compute_behaviors` result. -/
structure BehaviorResult where
  behaviors : List DetectedBehavior
  meta : BehaviorMeta
deriving Repr, DecidableEq

-- =============================================================================
-- round(x, 3) on exact rationals (half-even)
-- =============================================================================

/-- Round a rational to the nearest integer, ties to even. -/
def roundHalfEven (x : ℚ) : ℤ :=
  let n := ⌊x⌋
  let f := x - n
  if f < 1/2 then n
  else if 1/2 < f then n + 1
  else if n % 2 = 0 then n else n + 1

/-- Python `round(x, 3)` on the exact value. -/
def pythonRound3 (x : ℚ) : ℚ := (roundHalfEven (x * 1000) : ℚ) / 1000

-- =============================================================================
-- behavior_engine.py — PHASE 1: raw detection (loop body of compute_behaviors)
-- =============================================================================

/-- The values of the definition's required signals in its priority zone,
missing keys defaulting to 0.0 (`extracted_values`). -/
def extracted_values (d : BehaviorDefinition) (time_slices : TimeSlices) : List ℚ :=
  let slice_data := lookupD time_slices d.priority_zone []
  d.required_signals.map (fun k => lookupD slice_data k 0)

/-- `active_signals`: extracted values at or above the activation threshold. -/
def active_signals (d : BehaviorDefinition) (time_slices : TimeSlices) : List ℚ :=
  (extracted_values d time_slices).filter
    (fun v => decide (SIGNAL_ACTIVATION_THRESHOLD ≤ v))

/-- The intensity before rounding: mean of active signals, weighted by 1.5
when 3 or more are active. -/
def preRoundIntensity (d : BehaviorDefinition) (time_slices : TimeSlices) : ℚ :=
  let a := active_signals d time_slices
  let mean := a.sum / (a.length : ℚ)
  if 3 ≤ a.length then mean * PONDERATION_FACTOR else mean

/-- One iteration of the PHASE-1 detection loop of `compute_behaviors`:
`none` when fewer than `MIN_REQUIRED_SIGNALS` signals are active. -/
def detectBehavior (d : BehaviorDefinition) (time_slices : TimeSlices) :
    Option DetectedBehavior :=
  let a := active_signals d time_slices
  if a.length < MIN_REQUIRED_SIGNALS then none
  else some
    { code := d.code, label := d.name, label_en := d.name_en
    , category := d.category
    , intensity := some (pythonRound3 (preRoundIntensity d time_slices))
    , time_slice := some d.priority_zone
    , status := "ACTIVE"
    , signals_count := some a.length
    , signals_required := some d.required_signals.length
    , raw_values := some (extracted_values d time_slices)
    , details := none }

/-- The raw behaviour list produced by PHASE 1. -/
def rawBehaviors (time_slices : TimeSlices) : List DetectedBehavior :=
  BEHAVIOR_DEFINITIONS.filterMap (fun d => detectBehavior d time_slices)

-- =============================================================================
-- Grouping (Python `by_code` / `by_category` dicts of lists)
-- =============================================================================

/-- Add `x` to the group of key `k`, appending a new group at the end when
`k` is unseen (dict-of-lists insertion). -/
def insertGrouped {α : Type} (k : String) (x : α) :
    List (String × List α) → List (String × List α)
  | [] => [(k, [x])]
  | (k', xs) :: rest =>
      if k' == k then (k', xs ++ [x]) :: rest
      else (k', xs) :: insertGrouped k x rest

/-- Group a list by a string key, groups in first-occurrence order. -/
def groupAux {α : Type} (key : α → String) :
    List α → List (String × List α) → List (String × List α)
  | [], acc => acc
  | x :: rest, acc => groupAux key rest (insertGrouped (key x) x acc)

/-- `{k: [x for x in l if key(x) == k]}` in first-occurrence key order. -/
def groupByKey {α : Type} (key : α → String) (l : List α) :
    List (String × List α) :=
  groupAux key l []

-- =============================================================================
-- behavior_engine.py — PHASE 2: orchestration stages
-- =============================================================================

/-- `_merge_slices` on one code group: keep the single variant, else the
first `last_15_min` variant, else the first variant. -/
def mergeGroup (variants : List DetectedBehavior) : List DetectedBehavior :=
  if variants.length = 1 then variants
  else
    match variants.find? (fun v => v.time_slice == some "last_15_min") with
    | some v => [v]
    | none => variants.take 1

/-- `_merge_slices`. -/
def merge_slices (behaviors : List DetectedBehavior) : List DetectedBehavior :=
  if behaviors = [] then behaviors
  else (((groupByKey (fun b => b.code) behaviors).map (fun g => mergeGroup g.2))).flatten

/-- `_apply_recency_strategy` on one category group: when both a `global`
and a `last_15_min` behaviour are present, keep only the `last_15_min`
ones. -/
def recencyGroup (cat_behaviors : List DetectedBehavior) : List DetectedBehavior :=
  if cat_behaviors.length ≤ 1 then cat_behaviors
  else
    let global_behaviors := cat_behaviors.filter (fun b => b.time_slice == some "global")
    let last_15_behaviors := cat_behaviors.filter (fun b => b.time_slice == some "last_15_min")
    if !global_behaviors.isEmpty && !last_15_behaviors.isEmpty then last_15_behaviors
    else cat_behaviors

/-- `_apply_recency_strategy`. -/
def apply_recency_strategy (behaviors : List DetectedBehavior) : List DetectedBehavior :=
  if behaviors = [] then behaviors
  else (((groupByKey (fun b => b.category) behaviors).map (fun g => recencyGroup g.2))).flatten

/-- The pairwise contradiction scan of `_resolve_contradictions`
(`contradiction_found`). -/
def anyContradiction : List String → Bool
  | [] => false
  | a :: rest => rest.any (fun b => are_behaviors_contradicting a b) || anyContradiction rest

/-- The accumulation of `contradicting_codes` (each code added once, in
scan order). -/
def gatherContradicting : List String → List String → List String
  | [], acc => acc
  | a :: rest, acc =>
      gatherContradicting rest
        (rest.foldl
          (fun acc2 b =>
            if are_behaviors_contradicting a b then addIfAbsent b (addIfAbsent a acc2)
            else acc2)
          acc)

/-- The synthetic AMBIGUOUS behaviour created for a category. -/
def ambiguousBehavior (category : String) (contradicting_codes : List String) :
    DetectedBehavior :=
  { code := "AMBIGU_" ++ (category.take 3).toUpper
  , label := "Ambiguïté " ++ category.capitalize
  , label_en := "Ambiguous " ++ category.capitalize
  , category := category
  , intensity := none, time_slice := none
  , status := "AMBIGUOUS"
  , signals_count := none, signals_required := none, raw_values := none
  , details := some contradicting_codes }

/-- `_resolve_contradictions` on one category group. -/
def resolveGroup (category : String) (cat_behaviors : List DetectedBehavior) :
    List DetectedBehavior :=
  if cat_behaviors.length ≤ 1 then cat_behaviors
  else
    let codes := cat_behaviors.map (fun b => b.code)
    if anyContradiction codes then
      ambiguousBehavior category (gatherContradicting codes []) ::
        cat_behaviors.filter (fun b => !(gatherContradicting codes []).contains b.code)
    else cat_behaviors

/-- `_resolve_contradictions`. -/
def resolve_contradictions (behaviors : List DetectedBehavior) : List DetectedBehavior :=
  if behaviors = [] then behaviors
  else (((groupByKey (fun b => b.category) behaviors).map (fun g => resolveGroup g.1 g.2))).flatten

/-- `CATEGORY_ORDER.get(category, 99)`. -/
def categoryRank (c : String) : Nat :=
  if c == "psychology" then 0
  else if c == "intensity" then 1
  else if c == "stability" then 2
  else 99

/-- Stable insertion (new element goes after all elements `y` with
`le y x`), replicating Python's stable `sorted`. -/
def insertLE {α : Type} (le : α → α → Bool) (x : α) : List α → List α
  | [] => [x]
  | y :: ys => if le y x then y :: insertLE le x ys else x :: y :: ys

/-- Stable sort by a boolean `le` (total preorder), as Python `sorted`. -/
def stableSortLE {α : Type} (le : α → α → Bool) (l : List α) : List α :=
  l.foldl (fun acc x => insertLE le x acc) []

/-- `_sort_by_priority`: stable sort by category rank. -/
def sort_by_priority (behaviors : List DetectedBehavior) : List DetectedBehavior :=
  if behaviors = [] then behaviors
  else stableSortLE (fun a b => categoryRank a.category ≤ categoryRank b.category) behaviors

-- =============================================================================
-- behavior_engine.py — compute_behaviors
-- =============================================================================

/-- The behaviour list after `_merge_slices`. -/
def mergedStage (time_slices : TimeSlices) : List DetectedBehavior :=
  merge_slices (rawBehaviors time_slices)

/-- The behaviour list after `_apply_recency_strategy`. -/
def recencyStage (time_slices : TimeSlices) : List DetectedBehavior :=
  apply_recency_strategy (mergedStage time_slices)

/-- The behaviour list after `_resolve_contradictions`. -/
def resolvedStage (time_slices : TimeSlices) : List DetectedBehavior :=
  resolve_contradictions (recencyStage time_slices)

/-- The final behaviour list of `compute_behaviors`. -/
def finalBehaviors (time_slices : TimeSlices) : List DetectedBehavior :=
  sort_by_priority (resolvedStage time_slices)

/-- `BehaviorEngine.compute_behaviors`.  The wall-clock value written into
`meta.timestamp` is passed explicitly. -/
def compute_behaviors (time_slices : TimeSlices) (timestamp : String) :
    BehaviorResult :=
  let behaviors := finalBehaviors time_slices
  { behaviors := behaviors
  , meta :=
    { source := "BehaviorEngine"
    , version := "2.3"
    , timestamp := timestamp
    , signals_processed :=
        (BEHAVIOR_DEFINITIONS.map (fun d => d.required_signals.length)).sum
    , behaviors_detected :=
        (behaviors.filter (fun b => b.status == "ACTIVE")).length
    , time_slices_used := time_slices.map (fun p => p.1)
    , recency_model := "last_15_priority" } }

-- =============================================================================
-- pattern_engine.py — static rule tables
-- =============================================================================

/-- A pattern rule: `frozenset(codes) -> (pattern_code, label)`.  The code
set of every rule is a list of distinct codes. -/
structure PatternRule where
  codes : List String
  pcode : String
  plabel : String
deriving Repr, DecidableEq

/-- `PATTERN_RULES`, in dict insertion order. -/
def PATTERN_RULES : List PatternRule :=
  [ ⟨["STB_01", "PSY_01", "INT_02"], "PTN_03", "Désintégration complète"⟩
  , ⟨["STB_02", "INT_01", "PSY_02"], "PTN_07", "Contrôle total"⟩
  , ⟨["STB_01", "PSY_01"], "PTN_01", "Perte de contrôle sous pression"⟩
  , ⟨["STB_01", "INT_02"], "PTN_02", "Effondrement par fatigue"⟩
  , ⟨["STB_02", "INT_01"], "PTN_04", "Domination tactique active"⟩
  , ⟨["STB_02", "PSY_02"], "PTN_05", "Résilience organisée"⟩
  , ⟨["INT_01", "PSY_02"], "PTN_06", "Pressing mental"⟩
  , ⟨["INT_01", "PSY_01"], "PTN_08", "Agressivité désordonnée"⟩
  , ⟨["INT_02", "PSY_01"], "PTN_09", "Déclin émotionnel"⟩
  , ⟨["INT_02", "PSY_02"], "PTN_10", "Résilience sous fatigue"⟩
  , ⟨["STB_01", "INT_01"], "PTN_11", "Chaos offensif"⟩
  , ⟨["STB_02", "INT_02"], "PTN_12", "Verrouillage défensif tardif"⟩ ]

/-- `PATTERN_RULES_V2` (mixed stats + vision patterns), in insertion order. -/
def PATTERN_RULES_V2 : List PatternRule :=
  [ ⟨["STB_01", "VIS_PRESS_HIGH"], "PTN_VIS_01", "Défense sous siège visuel"⟩
  , ⟨["INT_01", "VIS_CLUSTER_HIGH"], "PTN_VIS_02", "Pressing concentré visuellement"⟩
  , ⟨["STB_01", "VIS_CLUSTER_LOW"], "PTN_VIS_03", "Désorganisation spatiale visible"⟩
  , ⟨["STB_02", "VIS_PRESS_LOW"], "PTN_VIS_04", "Contrôle visuel de l\x27espace"⟩
  , ⟨["INT_02", "VIS_FLOW_LOW"], "PTN_VIS_05", "Ralentissement visuel du jeu"⟩
  , ⟨["STB_01", "INT_02", "VIS_PRESS_HIGH"], "PTN_VIS_06", "Siège défensif complet"⟩ ]

-- =============================================================================
-- pattern_engine.py — compute_patterns
-- =============================================================================

/-- The two fields of a behaviour dict that `compute_patterns` reads
(`behavior.get("status", "")` / `behavior.get("code", "")`). -/
structure PatternBehavior where
  code : Option String
  status : Option String
deriving Repr, DecidableEq

/-- A detected pattern. -/
structure DetectedPattern where
  pattern_code : String
  label : String
  sources : List String
  category : String
deriving Repr, DecidableEq

/-- Code-point lexicographic `≤` on char lists (the order Python's `str`
comparison uses), in a form the kernel can evaluate. -/
def charListLE : List Char → List Char → Bool
  | [], _ => true
  | _ :: _, [] => false
  | a :: as, b :: bs =>
      if a.val < b.val then true
      else if b.val < a.val then false
      else charListLE as bs

/-- Python string `≤` (code-point lexicographic). -/
def strLE (a b : String) : Bool := charListLE a.data b.data

/-- Auxiliary for `strStartsWith`. -/
def charLead : List Char → List Char → Bool
  | [], _ => true
  | _ :: _, [] => false
  | p :: ps, c :: cs => p == c && charLead ps cs

/-- Python `s.startswith(pre)` by code points, in kernel-evaluable form. -/
def strStartsWith (s pre : String) : Bool := charLead pre.data s.data

/-- `sorted(list(rule_set))`: the rule's codes in lexicographic order. -/
def sortedSources (codes : List String) : List String :=
  stableSortLE strLE codes

/-- `_extract_active_codes`: the set of codes of ACTIVE behaviours whose
code is non-empty and does not start with `AMBIGU`. -/
def extract_active_codes (behaviors : List PatternBehavior) : List String :=
  behaviors.foldl
    (fun acc b =>
      let status := b.status.getD ""
      let code := b.code.getD ""
      if status == "ACTIVE" && code != "" && !strStartsWith code "AMBIGU" then
        addIfAbsent code acc
      else acc)
    []

/-- The sort key order of `sorted(rules, key=(-len, pattern_code))`:
larger rules first, ties by ascending pattern code. -/
def ruleLE (a b : PatternRule) : Bool :=
  (b.codes.length < a.codes.length) ||
    (b.codes.length == a.codes.length && strLE a.pcode b.pcode)

/-- The behaviour rules in evaluation order (`sorted_rules`). -/
def sortedBehaviorRules : List PatternRule := stableSortLE ruleLE PATTERN_RULES

/-- The visual rules in evaluation order (`sorted_v2_rules`). -/
def sortedV2Rules : List PatternRule := stableSortLE ruleLE PATTERN_RULES_V2

/-- Loop state of `compute_patterns`: the accumulated patterns, the
`used_codes` set and the `seen_pattern_codes` set. -/
structure PatternState where
  patterns : List DetectedPattern
  used_codes : List String
  seen_pattern_codes : List String
deriving Repr, DecidableEq

/-- The pattern emitted for a rule. -/
def mkPattern (r : PatternRule) (category : String) : DetectedPattern :=
  { pattern_code := r.pcode, label := r.plabel
  , sources := sortedSources r.codes, category := category }

/-- One iteration of the behaviour-rule loop of `compute_patterns`. -/
def behaviorRuleStep (active_codes : List String) (st : PatternState)
    (r : PatternRule) : PatternState :=
  if !r.codes.all (fun c => active_codes.contains c) then st
  else if st.seen_pattern_codes.contains r.pcode then st
  else if r.codes.length = 3 then
    { patterns := st.patterns ++ [mkPattern r "composite"]
    , used_codes := st.used_codes ++ r.codes
    , seen_pattern_codes := st.seen_pattern_codes ++ [r.pcode] }
  else if r.codes.all (fun c => st.used_codes.contains c) then st
  else
    { patterns := st.patterns ++ [mkPattern r "composite"]
    , used_codes := st.used_codes ++ r.codes
    , seen_pattern_codes := st.seen_pattern_codes ++ [r.pcode] }

/-- One iteration of the visual-rule loop of `compute_patterns` (no
`used_codes` constraint; matched against the full code set). -/
def visualRuleStep (all_codes : List String) (st : PatternState)
    (r : PatternRule) : PatternState :=
  if !r.codes.all (fun c => all_codes.contains c) then st
  else if st.seen_pattern_codes.contains r.pcode then st
  else
    { patterns := st.patterns ++ [mkPattern r "composite_visual"]
    , used_codes := st.used_codes
    , seen_pattern_codes := st.seen_pattern_codes ++ [r.pcode] }

/-- The full code set `all_codes = set(active_codes) | set(visual_signals)`
(the update happens only when `visual_signals` is truthy). -/
def allCodes (behaviors : List PatternBehavior) (visual_signals : Option (List String)) :
    List String :=
  let active := extract_active_codes behaviors
  match visual_signals with
  | some vs => if vs = [] then active else vs.foldl (fun acc v => addIfAbsent v acc) active
  | none => active

/-- The state after the behaviour-rule loop of `compute_patterns`. -/
def behaviorPatternsState (active_codes : List String) : PatternState :=
  sortedBehaviorRules.foldl (behaviorRuleStep active_codes) ⟨[], [], []⟩

/-- The state after both loops of `compute_patterns` (the visual loop runs
only when `visual_signals` is truthy; `enable_visual = True` is the
factory default). -/
def fullPatternsState (behaviors : List PatternBehavior)
    (visual_signals : Option (List String)) : PatternState :=
  match visual_signals with
  | some vs =>
      if vs = [] then behaviorPatternsState (extract_active_codes behaviors)
      else sortedV2Rules.foldl (visualRuleStep (allCodes behaviors visual_signals))
        (behaviorPatternsState (extract_active_codes behaviors))
  | none => behaviorPatternsState (extract_active_codes behaviors)

/-- `PatternEngine.compute_patterns`. -/
def compute_patterns (behaviors : List PatternBehavior)
    (visual_signals : Option (List String)) : List DetectedPattern :=
  if (allCodes behaviors visual_signals).length < 2 then []
  else (fullPatternsState behaviors visual_signals).patterns

-- =============================================================================
-- match_flow.py — static tables
-- =============================================================================

/-- `PHASE_LABELS`: `(behavior_code, time_slice) -> phase label`. -/
def PHASE_LABELS : List ((String × String) × String) :=
  [ (("STB_01", "global"), "Fragilité structurelle")
  , (("STB_01", "last_15_min"), "Effondrement défensif final")
  , (("STB_02", "global"), "Contrôle tactique")
  , (("STB_02", "last_15_min"), "Verrouillage tardif")
  , (("INT_01", "global"), "Intensité active")
  , (("INT_01", "last_15_min"), "Pressing final")
  , (("INT_02", "global"), "Fatigue précoce")
  , (("INT_02", "last_15_min"), "Déclin physique final")
  , (("PSY_01", "global"), "Tension émotionnelle")
  , (("PSY_01", "last_15_min"), "Frustration finale")
  , (("PSY_02", "global"), "Résilience mentale")
  , (("PSY_02", "last_15_min"), "Résistance finale") ]

def DEFAULT_GLOBAL_LABEL : String := "Phase de stabilisation"
def DEFAULT_LAST15_LABEL : String := "Phase finale"
def MIN_PHASES : Nat := 2
def MAX_PHASES : Nat := 5

/-- `RUPTURE_CODES = {"STB_01", "INT_02"}`. -/
def RUPTURE_CODES : List String := ["STB_01", "INT_02"]
def RUPTURE_LABEL : String := "Rupture structurelle"

-- =============================================================================
-- match_flow.py — reconstruct
-- =============================================================================

/-- The four fields of a behaviour dict that `reconstruct` reads, each
possibly absent. -/
structure FlowBehavior where
  code : Option String
  status : Option String
  time_slice : Option String
  category : Option String
deriving Repr, DecidableEq

/-- `PHASE_LABELS.get((code, slice))`. -/
def phaseLabelLookup (code slice : String) : Option String :=
  List.lookup (code, slice) PHASE_LABELS

/-- The label `_build_phases` derives for a code in a slice (table lookup,
falling back to the slice's default; no table label is falsy). -/
def labelFor (code slice : String) : String :=
  match phaseLabelLookup code slice with
  | some l => l
  | none => if slice == "last_15_min" then DEFAULT_LAST15_LABEL else DEFAULT_GLOBAL_LABEL

/-- The category order used for phase labels
(`{"stability": 0, "intensity": 1, "psychology": 2}.get(c, 99)` — note it
differs from the resolver's `CATEGORY_ORDER`). -/
def flowCategoryRank (c : String) : Nat :=
  if c == "stability" then 0
  else if c == "intensity" then 1
  else if c == "psychology" then 2
  else 99

/-- Stable category sort of `_build_phases` / `_build_phases_with_rupture`. -/
def flowSort (behaviors : List FlowBehavior) : List FlowBehavior :=
  stableSortLE
    (fun a b => flowCategoryRank (a.category.getD "") ≤ flowCategoryRank (b.category.getD ""))
    behaviors

/-- The emission loop of `_build_phases`: append each behaviour's label
unless it is already in `seen_labels`. -/
def buildPhasesAux (slice : String) : List FlowBehavior → List String → List String
  | [], _ => []
  | b :: rest, seen =>
      let label := labelFor (b.code.getD "") slice
      if seen.contains label then buildPhasesAux slice rest seen
      else label :: buildPhasesAux slice rest (seen ++ [label])

/-- `_build_phases`. -/
def build_phases (behaviors : List FlowBehavior) (slice : String) : List String :=
  if behaviors = [] then []
  else buildPhasesAux slice (flowSort behaviors) []

/-- The `rupture_codes_found` set of `_build_phases_with_rupture`. -/
def ruptureCodesFound (behaviors : List FlowBehavior) : List String :=
  behaviors.foldl
    (fun acc b =>
      if RUPTURE_CODES.contains (b.code.getD "") then addIfAbsent (b.code.getD "") acc
      else acc)
    []

/-- Set equality `rupture_codes_found == RUPTURE_CODES`. -/
def ruptureSetComplete (found : List String) : Bool :=
  RUPTURE_CODES.all (fun c => found.contains c) &&
    found.all (fun c => RUPTURE_CODES.contains c)

/-- The second loop of `_build_phases_with_rupture`: emit each behaviour's
`last_15_min` label, skipping rupture-coded behaviours once the rupture
label has been emitted, deduplicating against `seen_labels`. -/
def buildRuptureRest : List FlowBehavior → List String → List String
  | [], _ => []
  | b :: rest, seen =>
      let code := b.code.getD ""
      if RUPTURE_CODES.contains code && seen.contains RUPTURE_LABEL then
        buildRuptureRest rest seen
      else
        let label := (phaseLabelLookup code "last_15_min").getD DEFAULT_LAST15_LABEL
        if seen.contains label then buildRuptureRest rest seen
        else label :: buildRuptureRest rest (seen ++ [label])

/-- `_build_phases_with_rupture`. -/
def build_phases_with_rupture (last15_behaviors : List FlowBehavior) : List String :=
  let sorted := flowSort last15_behaviors
  if ruptureSetComplete (ruptureCodesFound sorted) then
    RUPTURE_LABEL :: buildRuptureRest sorted [RUPTURE_LABEL]
  else buildRuptureRest sorted []

/-- A behaviour that `reconstruct` keeps: status ACTIVE and code not of the
AMBIGU family. -/
def isFlowKept (b : FlowBehavior) : Bool :=
  b.status == some "ACTIVE" && !strStartsWith (b.code.getD "") "AMBIGU"

/-- The kept behaviours whose `time_slice` (default `"global"`) is not
`last_15_min`. -/
def globalGroup (behaviors : List FlowBehavior) : List FlowBehavior :=
  behaviors.filter (fun b => isFlowKept b && !(b.time_slice.getD "global" == "last_15_min"))

/-- The kept behaviours in the `last_15_min` slice. -/
def last15Group (behaviors : List FlowBehavior) : List FlowBehavior :=
  behaviors.filter (fun b => isFlowKept b && b.time_slice.getD "global" == "last_15_min")

/-- The `last15_codes` set. -/
def last15Codes (behaviors : List FlowBehavior) : List String :=
  (last15Group behaviors).foldl (fun acc b => addIfAbsent (b.code.getD "") acc) []

/-- The phase labels derived before the `[2, 5]` clamp: GLOBAL-derived
phases, then the final phases (with rupture collapse when the rupture
signature is covered). -/
def derivedPhases (behaviors : List FlowBehavior) : List String :=
  let global_phases := build_phases (globalGroup behaviors) "global"
  let has_rupture := RUPTURE_CODES.all (fun c => (last15Codes behaviors).contains c)
  let final_phases :=
    if has_rupture then build_phases_with_rupture (last15Group behaviors)
    else build_phases (last15Group behaviors) "last_15_min"
  global_phases ++ final_phases

/-- The padding step of `_apply_limits`: the source's `while` loop body,
which runs at most once for a nonempty input because the floor is 2. -/
def padToMin (phases : List String) : List String :=
  if phases.length < MIN_PHASES then
    if phases.contains DEFAULT_LAST15_LABEL then DEFAULT_GLOBAL_LABEL :: phases
    else phases ++ [DEFAULT_LAST15_LABEL]
  else phases

/-- The truncation step of `_apply_limits`. -/
def truncToMax (phases : List String) : List String :=
  if MAX_PHASES < phases.length then phases.take MAX_PHASES else phases

/-- `_apply_limits`. -/
def apply_limits (phases : List String) : List String :=
  if phases = [] then [DEFAULT_GLOBAL_LABEL, DEFAULT_LAST15_LABEL]
  else truncToMax (padToMin phases)

/-- The phase labels of the reconstruction, after the `[2, 5]` clamp and
before numbering. -/
def phaseSequence (behaviors : List FlowBehavior) : List String :=
  apply_limits (derivedPhases behaviors)

/-- `"Phase {i+1} : {label}"` numbering. -/
def numberPhases (phases : List String) : List String :=
  phases.enum.map (fun p => "Phase " ++ toString (p.1 + 1) ++ " : " ++ p.2)

/-- `MatchFlowReconstructor.reconstruct`. -/
def reconstruct (behaviors : List FlowBehavior) : List String :=
  numberPhases (phaseSequence behaviors)

-- =============================================================================
-- Infrastructure: association-list lookup
-- =============================================================================

theorem lookup_mem {α : Type} {k : String} {v : α} {l : List (String × α)}
    (h : List.lookup k l = some v) : (k, v) ∈ l := by
  induction l with
  | nil => simp [List.lookup] at h
  | cons p rest ih =>
    obtain ⟨k1, v1⟩ := p
    by_cases hk : k = k1
    · subst hk
      simp only [List.lookup, beq_self_eq_true] at h
      cases h
      exact List.mem_cons_self _ _
    · have hbeq : (k == k1) = false := beq_eq_false_iff_ne.mpr hk
      simp only [List.lookup, hbeq] at h
      exact List.mem_cons_of_mem _ (ih h)

-- =============================================================================
-- Infrastructure: grouping lemmas
-- =============================================================================

theorem insertGrouped_spec {α : Type} (key : α → String) (seen : List α) (x : α)
    (acc : List (String × List α))
    (h2 : ∀ k g, (k, g) ∈ acc → g = seen.filter (fun y => key y == k))
    (hcov : key x ∉ acc.map Prod.fst → seen.filter (fun y => key y == key x) = [])
    (hnd : (acc.map Prod.fst).Nodup) :
    (∀ k g, (k, g) ∈ insertGrouped (key x) x acc →
        g = (seen ++ [x]).filter (fun y => key y == k)) ∧
      ((insertGrouped (key x) x acc).map Prod.fst).Nodup ∧
      (∀ k, k ∈ (insertGrouped (key x) x acc).map Prod.fst ↔
        (k = key x ∨ k ∈ acc.map Prod.fst)) := by
  induction acc with
  | nil =>
    refine ⟨?_, by simp [insertGrouped], by simp [insertGrouped]⟩
    intro k g hmem
    simp only [insertGrouped, List.mem_singleton, Prod.mk.injEq] at hmem
    obtain ⟨hk, hG⟩ := hmem
    subst hk
    subst hG
    rw [List.filter_append, hcov (by simp)]
    simp
  | cons p rest ih =>
    obtain ⟨k1, g1⟩ := p
    have hndc : k1 ∉ rest.map Prod.fst ∧ (rest.map Prod.fst).Nodup := by
      rw [List.map_cons, List.nodup_cons] at hnd
      exact hnd
    by_cases hk1e : k1 = key x
    · have hk1 : (k1 == key x) = true := beq_iff_eq.mpr hk1e
      have hstep : insertGrouped (key x) x ((k1, g1) :: rest) =
          (k1, g1 ++ [x]) :: rest := by
        simp [insertGrouped, hk1]
      rw [hstep]
      have hg1 : g1 = seen.filter (fun y => key y == k1) := h2 k1 g1 (by simp)
      refine ⟨?_, by simpa using hnd, ?_⟩
      · intro k g hmem
        rcases List.mem_cons.mp hmem with heq | hrest
        · obtain ⟨hkk, hgg⟩ := Prod.mk.injEq .. ▸ heq
          rw [hkk, hgg, List.filter_append, ← hg1]
          simp [hk1e, List.filter_cons]
        · have hgval := h2 k g (List.mem_cons_of_mem _ hrest)
          have hkne : k ≠ k1 := by
            intro hEq
            rw [hEq] at hrest
            exact hndc.1 (List.mem_map_of_mem Prod.fst hrest)
          have hxk : (key x == k) = false := by
            apply beq_eq_false_iff_ne.mpr
            rw [← hk1e]
            exact fun h => hkne h.symm
          rw [hgval, List.filter_append]
          simp [List.filter_cons, hxk]
      · intro k
        simp only [List.map_cons, List.mem_cons]
        rw [hk1e]
        tauto
    · have hk1 : (k1 == key x) = false := beq_eq_false_iff_ne.mpr hk1e
      have hstep : insertGrouped (key x) x ((k1, g1) :: rest) =
          (k1, g1) :: insertGrouped (key x) x rest := by
        simp [insertGrouped, hk1]
      rw [hstep]
      have h2' : ∀ k g, (k, g) ∈ rest → g = seen.filter (fun y => key y == k) :=
        fun k g hmem => h2 k g (List.mem_cons_of_mem _ hmem)
      have hcov' : key x ∉ rest.map Prod.fst → seen.filter (fun y => key y == key x) = [] := by
        intro hnotin
        apply hcov
        simp only [List.map_cons, List.mem_cons]
        rintro (h | h)
        · exact hk1e h.symm
        · exact hnotin h
      obtain ⟨ih2, ihnd, ihkeys⟩ := ih h2' hcov' hndc.2
      refine ⟨?_, ?_, ?_⟩
      · intro k g hmem
        rcases List.mem_cons.mp hmem with heq | hrest
        · obtain ⟨hkk, hgg⟩ := Prod.mk.injEq .. ▸ heq
          have hxk1 : (key x == k1) = false := by
            apply beq_eq_false_iff_ne.mpr
            exact fun h => hk1e h.symm
          rw [hkk, hgg, h2 k1 g1 (by simp), List.filter_append]
          simp [List.filter_cons, hxk1]
        · exact ih2 k g hrest
      · simp only [List.map_cons, List.nodup_cons]
        refine ⟨?_, ihnd⟩
        intro hbad
        rcases (ihkeys k1).mp hbad with h | h
        · exact hk1e h
        · exact hndc.1 h
      · intro k
        simp only [List.map_cons, List.mem_cons, ihkeys k]
        tauto

theorem groupAux_spec {α : Type} (key : α → String) (l : List α) :
    ∀ (seen : List α) (acc : List (String × List α)),
    (∀ k g, (k, g) ∈ acc → g = seen.filter (fun y => key y == k)) →
    ((acc.map Prod.fst).Nodup) →
    (∀ y ∈ seen, key y ∈ acc.map Prod.fst) →
    (∀ k g, (k, g) ∈ groupAux key l acc →
        g = (seen ++ l).filter (fun y => key y == k)) ∧
      ((groupAux key l acc).map Prod.fst).Nodup ∧
      (∀ y ∈ seen ++ l, key y ∈ (groupAux key l acc).map Prod.fst) := by
  induction l with
  | nil =>
    intro seen acc h2 hnd hcov
    simp only [groupAux, List.append_nil]
    exact ⟨h2, hnd, hcov⟩
  | cons x rest ih =>
    intro seen acc h2 hnd hcov
    have hcov0 : key x ∉ acc.map Prod.fst → seen.filter (fun y => key y == key x) = [] := by
      intro hnotin
      rw [List.filter_eq_nil_iff]
      intro y hy
      simp only [beq_iff_eq]
      intro hEq
      exact hnotin (hEq ▸ hcov y hy)
    obtain ⟨s2, snd, skeys⟩ := insertGrouped_spec key seen x acc h2 hcov0 hnd
    have hcov2 : ∀ y ∈ seen ++ [x], key y ∈ (insertGrouped (key x) x acc).map Prod.fst := by
      intro y hy
      rcases List.mem_append.mp hy with h | h
      · exact (skeys (key y)).mpr (Or.inr (hcov y h))
      · simp only [List.mem_singleton] at h
        subst h
        exact (skeys (key y)).mpr (Or.inl rfl)
    have := ih (seen ++ [x]) (insertGrouped (key x) x acc) s2 snd hcov2
    simp only [groupAux]
    simpa [List.append_assoc] using this

/-- Each group of `groupByKey` is exactly the filter of its key. -/
theorem groupByKey_filter {α : Type} (key : α → String) (l : List α)
    {k : String} {g : List α} (h : (k, g) ∈ groupByKey key l) :
    g = l.filter (fun y => key y == k) := by
  have := (groupAux_spec key l [] [] (by simp) (by simp) (by simp)).1 k g
  simpa [groupByKey] using this h

/-- The group keys of `groupByKey` are distinct. -/
theorem groupByKey_keys_nodup {α : Type} (key : α → String) (l : List α) :
    ((groupByKey key l).map Prod.fst).Nodup :=
  (groupAux_spec key l [] [] (by simp) (by simp) (by simp)).2.1

/-- Every element's key owns a group. -/
theorem groupByKey_covers {α : Type} (key : α → String) (l : List α)
    {y : α} (h : y ∈ l) : key y ∈ (groupByKey key l).map Prod.fst := by
  have := (groupAux_spec key l [] [] (by simp) (by simp) (by simp)).2.2 y
  simpa [groupByKey] using this h

/-- The group of an element's key contains exactly the matching elements. -/
theorem groupByKey_mem_self {α : Type} (key : α → String) (l : List α)
    {y : α} (h : y ∈ l) :
    (key y, l.filter (fun z => key z == key y)) ∈ groupByKey key l := by
  have hk := groupByKey_covers key l h
  rcases List.mem_map.mp hk with ⟨⟨k, g⟩, hmem, hfst⟩
  simp only at hfst
  subst hfst
  have := groupByKey_filter key l hmem
  rw [← this]
  exact hmem

theorem count_filter_eq {α : Type} [DecidableEq α] (a : α) (l : List α) (p : α → Bool) :
    (l.filter p).count a = if p a then l.count a else 0 := by
  by_cases h : p a
  · rw [if_pos h, List.count_filter h]
  · rw [if_neg h, List.count_eq_zero]
    intro hmem
    exact h (List.mem_filter.mp hmem).2

theorem flatten_groups_count {α : Type} [DecidableEq α] (key : α → String) (l : List α)
    (groups : List (String × List α))
    (hg : ∀ p ∈ groups, p.2 = l.filter (fun y => key y == p.1))
    (hnd : (groups.map Prod.fst).Nodup) (a : α) :
    ((groups.map Prod.snd).flatten).count a =
      if key a ∈ groups.map Prod.fst then l.count a else 0 := by
  induction groups with
  | nil => simp
  | cons p rest ih =>
    obtain ⟨k, g⟩ := p
    have hndc : k ∉ rest.map Prod.fst ∧ (rest.map Prod.fst).Nodup := by
      rw [List.map_cons, List.nodup_cons] at hnd
      exact hnd
    have hg0 : g = l.filter (fun y => key y == k) := hg (k, g) (by simp)
    have ihv := ih (fun p hp => hg p (List.mem_cons_of_mem _ hp)) hndc.2
    simp only [List.map_cons, List.flatten_cons, List.count_append, ihv]
    by_cases hk : key a = k
    · have hknotin : key a ∉ rest.map Prod.fst := by rw [hk]; exact hndc.1
      rw [if_neg hknotin, hg0, count_filter_eq]
      simp [hk]
    · have hbeq : (key a == k) = false := beq_eq_false_iff_ne.mpr hk
      rw [hg0, count_filter_eq, hbeq]
      simp only [Bool.false_eq_true, if_false, Nat.zero_add, List.map_cons, List.mem_cons]
      by_cases hmem : key a ∈ rest.map Prod.fst
      · rw [if_pos hmem, if_pos (Or.inr hmem)]
      · rw [if_neg hmem, if_neg]
        rintro (h | h)
        · exact hk h
        · exact hmem h

/-- The groups of `groupByKey` partition the list (as a multiset). -/
theorem groupByKey_flatten_perm {α : Type} [DecidableEq α] (key : α → String)
    (l : List α) :
    List.Perm (((groupByKey key l).map Prod.snd).flatten) l := by
  rw [List.perm_iff_count]
  intro a
  rw [flatten_groups_count key l _ (fun p hp => groupByKey_filter key l hp)
    (groupByKey_keys_nodup key l)]
  by_cases h : key a ∈ (groupByKey key l).map Prod.fst
  · rw [if_pos h]
  · rw [if_neg h, eq_comm, List.count_eq_zero]
    intro hmem
    exact h (groupByKey_covers key l hmem)

theorem flatten_map_sublist {α : Type} (groups : List (String × List α))
    (f : String → List α → List α)
    (hf : ∀ p ∈ groups, List.Sublist (f p.1 p.2) p.2) :
    List.Sublist ((groups.map (fun p => f p.1 p.2)).flatten)
      ((groups.map Prod.snd).flatten) := by
  induction groups with
  | nil => simp
  | cons p rest ih =>
    simp only [List.map_cons, List.flatten_cons]
    exact List.Sublist.append (hf p (by simp))
      (ih (fun q hq => hf q (List.mem_cons_of_mem _ hq)))

/-- A per-group transformation that only selects elements yields a
sub-multiset of the input list. -/
theorem flatten_groups_subperm {α : Type} [DecidableEq α] (key : α → String)
    (f : String → List α → List α) (hf : ∀ k g, List.Sublist (f k g) g)
    (l : List α) :
    List.Subperm (((groupByKey key l).map (fun p => f p.1 p.2)).flatten) l := by
  have h1 := flatten_map_sublist (groupByKey key l) f (fun p _ => hf p.1 p.2)
  exact h1.subperm.trans (groupByKey_flatten_perm key l).subperm

-- =============================================================================
-- Infrastructure: stable sort membership
-- =============================================================================

theorem mem_insertLE {α : Type} (le : α → α → Bool) (x a : α) (l : List α) :
    a ∈ insertLE le x l ↔ a = x ∨ a ∈ l := by
  induction l with
  | nil => simp [insertLE]
  | cons y ys ih =>
    by_cases h : le y x
    · rw [show insertLE le x (y :: ys) = y :: insertLE le x ys from by simp [insertLE, h]]
      rw [List.mem_cons, List.mem_cons, ih]
      tauto
    · rw [show insertLE le x (y :: ys) = x :: y :: ys from by simp [insertLE, h]]
      exact List.mem_cons

theorem mem_foldl_insertLE {α : Type} (le : α → α → Bool) (l : List α) :
    ∀ (acc : List α) (a : α),
      a ∈ l.foldl (fun acc x => insertLE le x acc) acc ↔ a ∈ acc ∨ a ∈ l := by
  induction l with
  | nil => simp
  | cons x rest ih =>
    intro acc a
    simp only [List.foldl_cons, ih (insertLE le x acc) a, mem_insertLE, List.mem_cons]
    tauto

theorem mem_stableSortLE {α : Type} (le : α → α → Bool) (l : List α) (a : α) :
    a ∈ stableSortLE le l ↔ a ∈ l := by
  simp [stableSortLE, mem_foldl_insertLE]

-- =============================================================================
-- Infrastructure: small list facts
-- =============================================================================

theorem mem_addIfAbsent {c d : String} {l : List String} :
    c ∈ addIfAbsent d l ↔ c = d ∨ c ∈ l := by
  unfold addIfAbsent
  by_cases h : d ∈ l
  · rw [if_pos h]
    constructor
    · exact Or.inr
    · rintro (rfl | hc)
      · exact h
      · exact hc
  · rw [if_neg h]
    simp only [List.mem_append, List.mem_singleton]
    tauto

theorem one_lt_length_of_mem_ne {α : Type} {a b : α} {l : List α}
    (ha : a ∈ l) (hb : b ∈ l) (hne : a ≠ b) : 1 < l.length := by
  match l with
  | [] => cases ha
  | [x] =>
    rw [List.mem_singleton] at ha hb
    exact absurd (ha.trans hb.symm) hne
  | x :: y :: t => simp [Nat.succ_lt_succ]

theorem pair_split_of_mem {α : Type} {a b : α} {l : List α}
    (ha : a ∈ l) (hb : b ∈ l) (hne : a ≠ b) :
    (∃ s m t, l = s ++ a :: m ++ b :: t) ∨ (∃ s m t, l = s ++ b :: m ++ a :: t) := by
  induction l with
  | nil => cases ha
  | cons x rest ih =>
    by_cases hxa : x = a
    · subst hxa
      have hbr : b ∈ rest := by
        rcases List.mem_cons.mp hb with h | h
        · exact absurd h.symm hne
        · exact h
      rcases List.append_of_mem hbr with ⟨m, t, hmt⟩
      left
      exact ⟨[], m, t, by simp [hmt]⟩
    · by_cases hxb : x = b
      · subst hxb
        have har : a ∈ rest := by
          rcases List.mem_cons.mp ha with h | h
          · exact absurd h hne
          · exact h
        rcases List.append_of_mem har with ⟨m, t, hmt⟩
        right
        exact ⟨[], m, t, by simp [hmt]⟩
      · have har : a ∈ rest := by
          rcases List.mem_cons.mp ha with h | h
          · exact absurd h.symm hxa
          · exact h
        have hbr : b ∈ rest := by
          rcases List.mem_cons.mp hb with h | h
          · exact absurd h.symm hxb
          · exact h
        rcases ih har hbr with ⟨s, m, t, h⟩ | ⟨s, m, t, h⟩
        · left
          exact ⟨x :: s, m, t, by simp [h]⟩
        · right
          exact ⟨x :: s, m, t, by simp [h]⟩

theorem mem_stage_flatten {α β : Type} {b : β} {groups : List (String × List α)}
    {f : String × List α → List β} :
    b ∈ (groups.map f).flatten ↔ ∃ p ∈ groups, b ∈ f p := by
  rw [List.mem_flatten]
  constructor
  · rintro ⟨l, hl, hbl⟩
    obtain ⟨p, hp, rfl⟩ := List.mem_map.mp hl
    exact ⟨p, hp, hbl⟩
  · rintro ⟨p, hp, hbp⟩
    exact ⟨f p, List.mem_map_of_mem f hp, hbp⟩

theorem subperm_map {α β : Type} (f : α → β) {l₁ l₂ : List α}
    (h : List.Subperm l₁ l₂) : List.Subperm (l₁.map f) (l₂.map f) := by
  obtain ⟨w, hperm, hsub⟩ := h
  exact ⟨w.map f, hperm.map f, hsub.map f⟩

theorem nodup_of_subperm {α : Type} [DecidableEq α] {l₁ l₂ : List α}
    (h : List.Subperm l₁ l₂) (hnd : l₂.Nodup) : l₁.Nodup := by
  rw [List.nodup_iff_count_le_one] at hnd ⊢
  exact fun a => le_trans (h.count_le a) (hnd a)

-- =============================================================================
-- Stage lemmas: merge_slices
-- =============================================================================

theorem mergeGroup_sublist (g : List DetectedBehavior) :
    List.Sublist (mergeGroup g) g := by
  unfold mergeGroup
  by_cases h1 : g.length = 1
  · rw [if_pos h1]
  · rw [if_neg h1]
    cases hf : g.find? (fun v => v.time_slice == some "last_15_min") with
    | some v =>
      exact List.singleton_sublist.mpr (List.mem_of_find?_eq_some hf)
    | none => exact List.take_sublist 1 g

theorem mergeGroup_length (g : List DetectedBehavior) :
    (mergeGroup g).length ≤ 1 := by
  unfold mergeGroup
  by_cases h1 : g.length = 1
  · rw [if_pos h1, h1]
  · rw [if_neg h1]
    cases hf : g.find? (fun v => v.time_slice == some "last_15_min") with
    | some v => simp
    | none => simp

theorem mem_merge_slices {b : DetectedBehavior} {bs : List DetectedBehavior}
    (h : b ∈ merge_slices bs) : b ∈ bs := by
  unfold merge_slices at h
  by_cases hbs : bs = []
  · rw [if_pos hbs] at h
    exact h
  · rw [if_neg hbs, mem_stage_flatten] at h
    obtain ⟨p, hp, hbp⟩ := h
    have hbin : b ∈ p.2 := (mergeGroup_sublist p.2).subset hbp
    rw [groupByKey_filter _ bs hp] at hbin
    exact (List.mem_filter.mp hbin).1

theorem merge_codes_aux (groups : List (String × List DetectedBehavior))
    (hg : ∀ p ∈ groups, ∀ x ∈ p.2, x.code = p.1) :
    List.Sublist (((groups.map (fun p => mergeGroup p.2)).flatten).map (fun b => b.code))
      (groups.map Prod.fst) := by
  induction groups with
  | nil => simp
  | cons p rest ih =>
    simp only [List.map_cons, List.flatten_cons, List.map_append]
    have hpiece : List.Sublist ((mergeGroup p.2).map (fun b => b.code)) [p.1] := by
      have hsub := mergeGroup_sublist p.2
      have hlen := mergeGroup_length p.2
      cases hm : mergeGroup p.2 with
      | nil => simp
      | cons v t =>
        cases t with
        | nil =>
          have hv : v ∈ p.2 := (hm ▸ hsub).subset (by simp)
          simp [hg p (by simp) v hv]
        | cons w u =>
          rw [hm] at hlen
          simp at hlen
    exact List.Sublist.append hpiece (ih (fun q hq => hg q (List.mem_cons_of_mem _ hq)))

/-- After `_merge_slices` each code occurs at most once. -/
theorem merge_slices_codes_nodup (bs : List DetectedBehavior) :
    ((merge_slices bs).map (fun b => b.code)).Nodup := by
  by_cases hbs : bs = []
  · simp [merge_slices, hbs]
  · unfold merge_slices
    rw [if_neg hbs]
    have hg : ∀ p ∈ groupByKey (fun b => b.code) bs, ∀ x ∈ p.2, x.code = p.1 := by
      intro p hp x hx
      rw [groupByKey_filter _ bs hp] at hx
      simpa using (List.mem_filter.mp hx).2
    exact (groupByKey_keys_nodup _ bs).sublist (merge_codes_aux _ hg)

-- =============================================================================
-- Stage lemmas: apply_recency_strategy
-- =============================================================================

theorem recencyGroup_sublist (g : List DetectedBehavior) :
    List.Sublist (recencyGroup g) g := by
  unfold recencyGroup
  by_cases h1 : g.length ≤ 1
  · rw [if_pos h1]
  · rw [if_neg h1]
    by_cases h2 : (!(g.filter (fun b => b.time_slice == some "global")).isEmpty &&
        !(g.filter (fun b => b.time_slice == some "last_15_min")).isEmpty) = true
    · rw [if_pos h2]
      exact List.filter_sublist g
    · rw [if_neg h2]

theorem apply_recency_subperm (bs : List DetectedBehavior) :
    List.Subperm (apply_recency_strategy bs) bs := by
  by_cases hbs : bs = []
  · subst hbs
    exact List.Subperm.refl _
  · unfold apply_recency_strategy
    rw [if_neg hbs]
    exact flatten_groups_subperm (fun b => b.category) (fun _ g => recencyGroup g)
      (fun _ g => recencyGroup_sublist g) bs

theorem mem_apply_recency {b : DetectedBehavior} {bs : List DetectedBehavior}
    (h : b ∈ apply_recency_strategy bs) : b ∈ bs :=
  (apply_recency_subperm bs).subset h

/-- The Money-Time rule: when a category holds both a GLOBAL and a
LAST_15_MIN behaviour, only its LAST_15_MIN behaviours survive recency. -/
theorem recency_drops_global {bs : List DetectedBehavior} {cat : String}
    (hg : ∃ g ∈ bs, g.category = cat ∧ g.time_slice = some "global")
    (hl : ∃ g ∈ bs, g.category = cat ∧ g.time_slice = some "last_15_min") :
    ∀ b ∈ apply_recency_strategy bs, b.category = cat →
      b.time_slice = some "last_15_min" := by
  obtain ⟨bg, hbg, hbgcat, hbgsl⟩ := hg
  obtain ⟨bl, hbl, hblcat, hblsl⟩ := hl
  intro b hb hbcat
  have hbs : bs ≠ [] := by
    intro h
    rw [h] at hbg
    cases hbg
  unfold apply_recency_strategy at hb
  rw [if_neg hbs, mem_stage_flatten] at hb
  obtain ⟨p, hp, hbp⟩ := hb
  have hpfilter := groupByKey_filter _ bs hp
  have hbin2 : b ∈ p.2 := (recencyGroup_sublist p.2).subset hbp
  have hbkey : b.category = p.1 := by
    rw [hpfilter] at hbin2
    simpa using (List.mem_filter.mp hbin2).2
  have hk : p.1 = cat := by rw [← hbkey, hbcat]
  have hbg2 : bg ∈ p.2 := by
    rw [hpfilter, List.mem_filter]
    exact ⟨hbg, by simp [hbgcat, hk]⟩
  have hbl2 : bl ∈ p.2 := by
    rw [hpfilter, List.mem_filter]
    exact ⟨hbl, by simp [hblcat, hk]⟩
  have hne : bg ≠ bl := by
    intro h
    rw [h, hblsl] at hbgsl
    simp at hbgsl
  have hlen : 1 < p.2.length := one_lt_length_of_mem_ne hbg2 hbl2 hne
  unfold recencyGroup at hbp
  rw [if_neg (by omega)] at hbp
  have hgne : (p.2.filter (fun x => x.time_slice == some "global")).isEmpty = false := by
    rw [List.isEmpty_eq_false_iff_exists_mem]
    exact ⟨bg, List.mem_filter.mpr ⟨hbg2, by simp [hbgsl]⟩⟩
  have hlne : (p.2.filter (fun x => x.time_slice == some "last_15_min")).isEmpty = false := by
    rw [List.isEmpty_eq_false_iff_exists_mem]
    exact ⟨bl, List.mem_filter.mpr ⟨hbl2, by simp [hblsl]⟩⟩
  rw [if_pos (by rw [hgne, hlne]; rfl)] at hbp
  simpa using (List.mem_filter.mp hbp).2

-- =============================================================================
-- Stage lemmas: resolve_contradictions and sort
-- =============================================================================

theorem mem_resolve_contradictions {b : DetectedBehavior} {bs : List DetectedBehavior}
    (h : b ∈ resolve_contradictions bs) :
    b ∈ bs ∨ ∃ g, (b.category, g) ∈ groupByKey (fun x => x.category) bs ∧
      1 < g.length ∧ anyContradiction (g.map (fun x => x.code)) = true ∧
      b = ambiguousBehavior b.category
        (gatherContradicting (g.map (fun x => x.code)) []) := by
  unfold resolve_contradictions at h
  by_cases hbs : bs = []
  · rw [if_pos hbs] at h
    exact Or.inl h
  · rw [if_neg hbs, mem_stage_flatten] at h
    obtain ⟨p, hp, hbp⟩ := h
    have hmem_of_group : b ∈ p.2 → b ∈ bs := by
      intro hx
      rw [groupByKey_filter _ bs hp] at hx
      exact (List.mem_filter.mp hx).1
    unfold resolveGroup at hbp
    by_cases h1 : p.2.length ≤ 1
    · rw [if_pos h1] at hbp
      exact Or.inl (hmem_of_group hbp)
    · rw [if_neg h1] at hbp
      by_cases h2 : anyContradiction (p.2.map (fun x => x.code)) = true
      · rw [if_pos h2] at hbp
        rcases List.mem_cons.mp hbp with heq | hflt
        · right
          have hcat : b.category = p.1 := by rw [heq]; rfl
          refine ⟨p.2, ?_, by omega, h2, ?_⟩
          · rw [hcat]
            exact hp
          · rw [hcat, heq]
        · exact Or.inl (hmem_of_group ((List.filter_sublist p.2).subset hflt))
      · rw [if_neg h2] at hbp
        exact Or.inl (hmem_of_group hbp)

theorem resolve_creates_ambiguous {bs : List DetectedBehavior} {k : String}
    {g : List DetectedBehavior}
    (hp : (k, g) ∈ groupByKey (fun x => x.category) bs)
    (hlen : 1 < g.length)
    (hcontr : anyContradiction (g.map (fun x => x.code)) = true) :
    ambiguousBehavior k (gatherContradicting (g.map (fun x => x.code)) []) ∈
      resolve_contradictions bs := by
  have hbs : bs ≠ [] := by
    intro h
    rw [h] at hp
    simp [groupByKey, groupAux] at hp
  unfold resolve_contradictions
  rw [if_neg hbs, mem_stage_flatten]
  refine ⟨(k, g), hp, ?_⟩
  show ambiguousBehavior k (gatherContradicting (g.map (fun x => x.code)) []) ∈
    resolveGroup k g
  unfold resolveGroup
  rw [if_neg (by omega), if_pos hcontr]
  exact List.mem_cons_self _ _

theorem mem_sort_by_priority {b : DetectedBehavior} {bs : List DetectedBehavior} :
    b ∈ sort_by_priority bs ↔ b ∈ bs := by
  unfold sort_by_priority
  by_cases h : bs = []
  · rw [if_pos h]
  · rw [if_neg h]
    exact mem_stableSortLE _ bs b

-- =============================================================================
-- Stage lemmas: raw detection
-- =============================================================================

theorem detectBehavior_some {d : BehaviorDefinition} {ts : TimeSlices}
    {b : DetectedBehavior} (h : detectBehavior d ts = some b) :
    b.code = d.code ∧ b.category = d.category ∧ b.status = "ACTIVE" ∧
      b.time_slice = some d.priority_zone ∧
      b.intensity = some (pythonRound3 (preRoundIntensity d ts)) ∧
      ¬ (active_signals d ts).length < MIN_REQUIRED_SIGNALS ∧
      b.signals_count = some (active_signals d ts).length := by
  unfold detectBehavior at h
  by_cases hc : (active_signals d ts).length < MIN_REQUIRED_SIGNALS
  · rw [if_pos hc] at h
    cases h
  · rw [if_neg hc] at h
    cases h
    exact ⟨rfl, rfl, rfl, rfl, rfl, hc, rfl⟩

theorem mem_rawBehaviors {ts : TimeSlices} {b : DetectedBehavior}
    (hb : b ∈ rawBehaviors ts) :
    ∃ d ∈ BEHAVIOR_DEFINITIONS, detectBehavior d ts = some b := by
  unfold rawBehaviors at hb
  rw [List.mem_filterMap] at hb
  exact hb

theorem rawBehaviors_status {ts : TimeSlices} {b : DetectedBehavior}
    (hb : b ∈ rawBehaviors ts) : b.status = "ACTIVE" := by
  obtain ⟨d, _, hd⟩ := mem_rawBehaviors hb
  exact (detectBehavior_some hd).2.2.1

/-- The behaviours of a `compute_behaviors` result are the final pipeline
stage. -/
theorem compute_behaviors_behaviors (ts : TimeSlices) (t : String) :
    (compute_behaviors ts t).behaviors = sort_by_priority (resolvedStage ts) := rfl

-- =============================================================================
-- Shared example inputs
-- =============================================================================

/-- A signal map whose exact mean 0.64505 is not representable in 3
decimals. -/
def tsRound : TimeSlices :=
  [("last_15_min",
    [("low_block_drop", mkRat 61 100), ("xg_against_spike", mkRat 6801 10000)])]

/-- The behaviour detected for STB_01 on `tsRound`. -/
def roundEx : DetectedBehavior :=
  { code := "STB_01", label := "Effondrement Structurel"
  , label_en := "Structural Collapse", category := "stability"
  , intensity := some (mkRat 129 200), time_slice := some "last_15_min"
  , status := "ACTIVE", signals_count := some 2, signals_required := some 2
  , raw_values := some [mkRat 61 100, mkRat 6801 10000], details := none }

theorem detectBehavior_eq_of_ge (d : BehaviorDefinition) (ts : TimeSlices)
    (h : ¬ (active_signals d ts).length < MIN_REQUIRED_SIGNALS) :
    detectBehavior d ts = some
      { code := d.code, label := d.name, label_en := d.name_en
      , category := d.category
      , intensity := some (pythonRound3 (preRoundIntensity d ts))
      , time_slice := some d.priority_zone, status := "ACTIVE"
      , signals_count := some (active_signals d ts).length
      , signals_required := some d.required_signals.length
      , raw_values := some (extracted_values d ts), details := none } := by
  unfold detectBehavior
  rw [if_neg h]

theorem act_tsRound :
    active_signals STB_01_DEF tsRound = [mkRat 61 100, mkRat 6801 10000] := by
  decide

theorem sum_tsRound :
    (active_signals STB_01_DEF tsRound).sum / 2 = mkRat 12901 20000 := by
  rw [act_tsRound]
  norm_num [Rat.mkRat_eq_div]

theorem preRound_two (d : BehaviorDefinition) (ts : TimeSlices)
    (h2 : (active_signals d ts).length = 2) :
    preRoundIntensity d ts = (active_signals d ts).sum / 2 := by
  unfold preRoundIntensity
  rw [if_neg (by omega), h2]
  norm_num

theorem preRound_three (d : BehaviorDefinition) (ts : TimeSlices)
    (h3 : (active_signals d ts).length = 3) :
    preRoundIntensity d ts = (active_signals d ts).sum / 3 * PONDERATION_FACTOR := by
  unfold preRoundIntensity
  rw [if_pos (by omega), h3]
  norm_num

theorem preRound_tsRound :
    preRoundIntensity STB_01_DEF tsRound = mkRat 12901 20000 := by
  rw [preRound_two STB_01_DEF tsRound (by rw [act_tsRound]; rfl), sum_tsRound]

theorem round3_tsRound : pythonRound3 (mkRat 12901 20000) = mkRat 129 200 := by
  have hfloor : ⌊(mkRat 12901 20000 * 1000 : ℚ)⌋ = 645 := by
    rw [Int.floor_eq_iff]
    constructor <;> norm_num [Rat.mkRat_eq_div]
  simp only [pythonRound3, roundHalfEven, hfloor]
  rw [if_pos (by norm_num [Rat.mkRat_eq_div])]
  norm_num [Rat.mkRat_eq_div]

theorem detect_tsRound : detectBehavior STB_01_DEF tsRound = some roundEx := by
  rw [detectBehavior_eq_of_ge STB_01_DEF tsRound (by rw [act_tsRound]; decide)]
  rw [preRound_tsRound, round3_tsRound]
  rw [act_tsRound]
  decide

theorem final_tsRound : (compute_behaviors tsRound "t").behaviors = [roundEx] := by
  rw [compute_behaviors_behaviors]
  unfold resolvedStage recencyStage mergedStage rawBehaviors BEHAVIOR_DEFINITIONS
  simp only [List.filterMap_cons, List.filterMap_nil, detect_tsRound,
    show detectBehavior STB_02_DEF tsRound = none from by decide,
    show detectBehavior INT_01_DEF tsRound = none from by decide,
    show detectBehavior INT_02_DEF tsRound = none from by decide,
    show detectBehavior PSY_01_DEF tsRound = none from by decide,
    show detectBehavior PSY_02_DEF tsRound = none from by decide]
  decide

-- =============================================================================
-- C1
-- =============================================================================

/-- C1 (counterexample): `compute_behaviors` is not byte-identical across
repeated calls with identical signal inputs, because `meta.timestamp`
records the wall clock, which differs between the two calls. -/
theorem c1_compute_behaviors_not_byte_identical :
    compute_behaviors [] "2025-01-01T00:00:00Z" ≠
      compute_behaviors [] "2025-01-01T00:00:01Z" := by
  decide

/-- C1 (amended): the three resolvers are deterministic functions of their
inputs except for the `meta.timestamp` field of `compute_behaviors`, which
copies the wall-clock reading; the behaviour list and every other metadata
field agree across calls with identical signal inputs, and
`compute_patterns` / `reconstruct` are byte-identical across repeated
calls. -/
theorem c1_resolvers_deterministic_up_to_timestamp (ts : TimeSlices)
    (t₁ t₂ : String) (bl : List PatternBehavior) (vis : Option (List String))
    (fl : List FlowBehavior) :
    (compute_behaviors ts t₁).behaviors = (compute_behaviors ts t₂).behaviors ∧
    (compute_behaviors ts t₁).meta.source = (compute_behaviors ts t₂).meta.source ∧
    (compute_behaviors ts t₁).meta.version = (compute_behaviors ts t₂).meta.version ∧
    (compute_behaviors ts t₁).meta.signals_processed =
      (compute_behaviors ts t₂).meta.signals_processed ∧
    (compute_behaviors ts t₁).meta.behaviors_detected =
      (compute_behaviors ts t₂).meta.behaviors_detected ∧
    (compute_behaviors ts t₁).meta.time_slices_used =
      (compute_behaviors ts t₂).meta.time_slices_used ∧
    (compute_behaviors ts t₁).meta.recency_model =
      (compute_behaviors ts t₂).meta.recency_model ∧
    (compute_behaviors ts t₁).meta.timestamp = t₁ ∧
    (compute_behaviors ts t₂).meta.timestamp = t₂ ∧
    compute_patterns bl vis = compute_patterns bl vis ∧
    reconstruct fl = reconstruct fl :=
  ⟨rfl, rfl, rfl, rfl, rfl, rfl, rfl, rfl, rfl, rfl, rfl⟩

-- =============================================================================
-- C5
-- =============================================================================

/-- C5: a behaviour definition with fewer than 2 required-signal values at
or above the 0.6 threshold in its priority zone produces no detected
behaviour of its code anywhere in the `compute_behaviors` output. -/
theorem c5_convergence_floor (ts : TimeSlices) (t : String)
    (d : BehaviorDefinition) (hd : d ∈ BEHAVIOR_DEFINITIONS)
    (hfew : (active_signals d ts).length < 2) :
    ∀ b ∈ (compute_behaviors ts t).behaviors, b.code ≠ d.code := by
  intro b hb heq
  rw [compute_behaviors_behaviors] at hb
  have hb1 : b ∈ resolvedStage ts := mem_sort_by_priority.mp hb
  rcases mem_resolve_contradictions hb1 with hmem | ⟨g, _, _, _, hamb⟩
  · have hb3 := mem_merge_slices (mem_apply_recency hmem)
    obtain ⟨d', hd', hdet⟩ := mem_rawBehaviors hb3
    have hcode : d'.code = d.code := by rw [← (detectBehavior_some hdet).1, heq]
    have hnd : (BEHAVIOR_DEFINITIONS.map (fun x => x.code)).Nodup := by decide
    have hdd : d' = d := List.inj_on_of_nodup_map hnd hd' hd hcode
    rw [hdd] at hdet
    exact (detectBehavior_some hdet).2.2.2.2.2.1 hfew
  · have hambcode : b.code = "AMBIGU_" ++ (b.category.take 3).toUpper := by
      rw [hamb]
      rfl
    have hlen6 : d.code.length = 6 := by
      have : ∀ x ∈ BEHAVIOR_DEFINITIONS, x.code.length = 6 := by decide
      exact this d hd
    have h7 : ("AMBIGU_" : String).length = 7 := by decide
    rw [← heq, hambcode, String.length_append, h7] at hlen6
    omega

/-- C5 (witness): with no signals at all, STB_01 is absent from the
output. -/
theorem c5_convergence_floor_witness :
    (STB_01_DEF ∈ BEHAVIOR_DEFINITIONS ∧ (active_signals STB_01_DEF []).length < 2) ∧
      ∀ b ∈ (compute_behaviors [] "t").behaviors, b.code ≠ STB_01_DEF.code :=
  ⟨⟨by decide, by decide⟩, c5_convergence_floor [] "t" STB_01_DEF (by decide) (by decide)⟩

-- =============================================================================
-- C6
-- =============================================================================

/-- C6 (counterexample): the produced intensity is not the exact
arithmetic mean — with active values 0.61 and 0.6801 the exact mean is
0.64505 but the reported intensity is its 3-decimal rounding 0.645. -/
theorem c6_intensity_not_exact_mean :
    roundEx ∈ (compute_behaviors tsRound "t").behaviors ∧
      roundEx.code = "STB_01" ∧ roundEx.signals_count = some 2 ∧
      (active_signals STB_01_DEF tsRound).sum / 2 = mkRat 12901 20000 ∧
      roundEx.intensity = some (mkRat 129 200) ∧
      roundEx.intensity ≠ some (mkRat 12901 20000) := by
  refine ⟨?_, by decide, by decide, sum_tsRound, by decide, ?_⟩
  · rw [final_tsRound]
    exact List.mem_singleton_self _
  · intro h
    rw [show roundEx.intensity = some (mkRat 129 200) from rfl] at h
    exact absurd (Option.some.inj h) (by decide)

/-- C6 (amended): with exactly 2 active signals the produced intensity is
the arithmetic mean of the active values rounded to 3 decimals (no
weighting); with exactly 3 active signals it is the mean times 1.5,
rounded to 3 decimals. -/
theorem c6_intensity_rounded_mean (d : BehaviorDefinition) (ts : TimeSlices)
    (b : DetectedBehavior) (hdet : detectBehavior d ts = some b) :
    ((active_signals d ts).length = 2 →
      b.intensity = some (pythonRound3 ((active_signals d ts).sum / 2))) ∧
    ((active_signals d ts).length = 3 →
      b.intensity = some (pythonRound3
        ((active_signals d ts).sum / 3 * PONDERATION_FACTOR))) := by
  have hint := (detectBehavior_some hdet).2.2.2.2.1
  constructor
  · intro h2
    rw [hint, preRound_two d ts h2]
  · intro h3
    rw [hint, preRound_three d ts h3]

/-- C6 (witness): the amended rule evaluated on the `tsRound` example. -/
theorem c6_intensity_rounded_mean_witness :
    detectBehavior STB_01_DEF tsRound = some roundEx ∧
      (active_signals STB_01_DEF tsRound).length = 2 ∧
      roundEx.intensity = some (pythonRound3
        ((active_signals STB_01_DEF tsRound).sum / 2)) :=
  ⟨detect_tsRound, by rw [act_tsRound]; rfl,
    (c6_intensity_rounded_mean STB_01_DEF tsRound roundEx detect_tsRound).1
      (by rw [act_tsRound]; rfl)⟩

-- =============================================================================
-- C10
-- =============================================================================

/-- C10: every detected behaviour's intensity field is the 3-decimal
half-even rounding of the computed value (mean of active signals, times
1.5 when 3 or more are active), and for some input the reported intensity
differs from the exact value. -/
theorem c10_intensity_is_rounded :
    (∀ (d : BehaviorDefinition) (ts : TimeSlices) (b : DetectedBehavior),
      detectBehavior d ts = some b →
        b.intensity = some (pythonRound3 (preRoundIntensity d ts))) ∧
    (∃ (d : BehaviorDefinition) (ts : TimeSlices) (b : DetectedBehavior),
      detectBehavior d ts = some b ∧
        b.intensity ≠ some (preRoundIntensity d ts)) := by
  constructor
  · intro d ts b h
    exact (detectBehavior_some h).2.2.2.2.1
  · refine ⟨STB_01_DEF, tsRound, roundEx, detect_tsRound, ?_⟩
    rw [preRound_tsRound]
    intro h
    rw [show roundEx.intensity = some (mkRat 129 200) from rfl] at h
    exact absurd (Option.some.inj h) (by decide)

/-- C10 (witness): the rounding equation evaluated on the `tsRound`
example. -/
theorem c10_intensity_is_rounded_witness :
    detectBehavior STB_01_DEF tsRound = some roundEx ∧
      roundEx.intensity = some (pythonRound3 (preRoundIntensity STB_01_DEF tsRound)) :=
  ⟨detect_tsRound, c10_intensity_is_rounded.1 STB_01_DEF tsRound roundEx detect_tsRound⟩

-- =============================================================================
-- C8
-- =============================================================================

theorem apply_limits_spec (phases : List String) :
    (2 ≤ (apply_limits phases).length ∧ (apply_limits phases).length ≤ 5) ∧
    (phases = [] → apply_limits phases = [DEFAULT_GLOBAL_LABEL, DEFAULT_LAST15_LABEL]) ∧
    (phases ≠ [] → phases.length < 2 →
      apply_limits phases =
        (if phases.contains DEFAULT_LAST15_LABEL then DEFAULT_GLOBAL_LABEL :: phases
         else phases ++ [DEFAULT_LAST15_LABEL])) ∧
    (5 < phases.length → apply_limits phases = phases.take 5) := by
  have hmin : MIN_PHASES = 2 := rfl
  have hmax : MAX_PHASES = 5 := rfl
  by_cases h0 : phases = []
  · subst h0
    refine ⟨⟨by decide, by decide⟩, fun _ => rfl, fun h _ => absurd rfl h,
      fun h => by simp at h⟩
  · have hal : apply_limits phases = truncToMax (padToMin phases) := by
      unfold apply_limits
      rw [if_neg h0]
    have hpos : 0 < phases.length := List.length_pos.mpr h0
    by_cases hlt : phases.length < 2
    · have hlen1 : phases.length = 1 := by omega
      have hpad : padToMin phases =
          (if phases.contains DEFAULT_LAST15_LABEL then DEFAULT_GLOBAL_LABEL :: phases
           else phases ++ [DEFAULT_LAST15_LABEL]) := by
        unfold padToMin
        rw [if_pos (by omega)]
      have hpadlen : (padToMin phases).length = 2 := by
        rw [hpad]
        by_cases hc : phases.contains DEFAULT_LAST15_LABEL
        · rw [if_pos hc]
          simp [hlen1]
        · rw [if_neg hc]
          simp [hlen1]
      have htr : truncToMax (padToMin phases) = padToMin phases := by
        unfold truncToMax
        rw [if_neg (by omega)]
      rw [hal, htr]
      exact ⟨⟨by omega, by omega⟩, fun h => absurd h h0, fun _ _ => hpad,
        fun h => by omega⟩
    · have hpad : padToMin phases = phases := by
        unfold padToMin
        rw [hmin, if_neg hlt]
      rw [hal, hpad]
      unfold truncToMax
      by_cases hgt : 5 < phases.length
      · rw [if_pos (by omega)]
        have hlen : (phases.take MAX_PHASES).length = 5 := by
          rw [List.length_take]
          rw [hmax]
          omega
        exact ⟨⟨by omega, by omega⟩, fun h => absurd h h0, fun _ h => by omega,
          fun _ => by rw [hmax]⟩
      · rw [if_neg (by omega)]
        exact ⟨⟨by omega, by omega⟩, fun h => absurd h h0, fun _ h => by omega,
          fun h => absurd h hgt⟩

/-- C8: the reconstructed phase list always has between 2 and 5 phases;
fewer than 2 derived phases are padded with the default labels
(default-final appended when absent, else default-global at the front),
and more than 5 derived phases are truncated to the first 5. -/
theorem c8_reconstruct_length_bounds (fl : List FlowBehavior) :
    (2 ≤ (reconstruct fl).length ∧ (reconstruct fl).length ≤ 5) ∧
    (derivedPhases fl = [] →
      phaseSequence fl = [DEFAULT_GLOBAL_LABEL, DEFAULT_LAST15_LABEL]) ∧
    (derivedPhases fl ≠ [] → (derivedPhases fl).length < 2 →
      phaseSequence fl =
        (if (derivedPhases fl).contains DEFAULT_LAST15_LABEL then
          DEFAULT_GLOBAL_LABEL :: derivedPhases fl
         else derivedPhases fl ++ [DEFAULT_LAST15_LABEL])) ∧
    (5 < (derivedPhases fl).length →
      phaseSequence fl = (derivedPhases fl).take 5) := by
  have hspec := apply_limits_spec (derivedPhases fl)
  have hlen : (reconstruct fl).length = (phaseSequence fl).length := by
    unfold reconstruct numberPhases
    rw [List.length_map, List.enum_length]
  refine ⟨⟨?_, ?_⟩, hspec.2.1, hspec.2.2.1, hspec.2.2.2⟩
  · rw [hlen]
    exact hspec.1.1
  · rw [hlen]
    exact hspec.1.2

/-- C8 (witness): the empty behaviour list yields exactly the two default
phases. -/
theorem c8_reconstruct_length_bounds_witness :
    derivedPhases [] = [] ∧
      phaseSequence [] = [DEFAULT_GLOBAL_LABEL, DEFAULT_LAST15_LABEL] ∧
      2 ≤ (reconstruct []).length :=
  ⟨by decide, (c8_reconstruct_length_bounds []).2.1 (by decide),
    (c8_reconstruct_length_bounds []).1.1⟩

-- =============================================================================
-- C4
-- =============================================================================

/-- C4: when, after the merge stage, a category holds both a GLOBAL and a
LAST_15_MIN behaviour, no GLOBAL behaviour of that category reaches the
contradiction stage or the final output — no contradiction check is
involved. -/
theorem c4_recency_drops_global (ts : TimeSlices) (t : String) (cat : String)
    (hg : ∃ b ∈ mergedStage ts, b.category = cat ∧ b.time_slice = some "global")
    (hl : ∃ b ∈ mergedStage ts, b.category = cat ∧ b.time_slice = some "last_15_min") :
    (∀ b ∈ recencyStage ts, b.category = cat → b.time_slice ≠ some "global") ∧
    (∀ b ∈ (compute_behaviors ts t).behaviors, b.category = cat →
      b.time_slice ≠ some "global") := by
  have hrec := recency_drops_global hg hl
  constructor
  · intro b hb hcat
    rw [hrec b hb hcat]
    decide
  · intro b hb hcat
    rw [compute_behaviors_behaviors] at hb
    have hb1 : b ∈ resolvedStage ts := mem_sort_by_priority.mp hb
    rcases mem_resolve_contradictions hb1 with hmem | ⟨g, _, _, _, hamb⟩
    · rw [hrec b hmem hcat]
      decide
    · intro hcontra
      rw [hamb] at hcontra
      exact Option.noConfusion hcontra

/-- The dual-window merged-stage example used by the C4 witness:
STB_02 (global) and STB_01 (last 15) are both active in `stability`. -/
def tsB : TimeSlices :=
  [("global",
    [("high_compactness", mkRat 8 10), ("successful_low_block", mkRat 7 10)]),
   ("last_15_min",
    [("low_block_drop", mkRat 85 100), ("xg_against_spike", mkRat 75 100)])]

/-- The behaviour detected for STB_01 on `tsB`. -/
def stb01B : DetectedBehavior :=
  { code := "STB_01", label := "Effondrement Structurel"
  , label_en := "Structural Collapse", category := "stability"
  , intensity := some (mkRat 8 10), time_slice := some "last_15_min"
  , status := "ACTIVE", signals_count := some 2, signals_required := some 2
  , raw_values := some [mkRat 85 100, mkRat 75 100], details := none }

/-- The behaviour detected for STB_02 on `tsB`. -/
def stb02B : DetectedBehavior :=
  { code := "STB_02", label := "Verrouillage Tactique"
  , label_en := "Tactical Lock", category := "stability"
  , intensity := some (mkRat 75 100), time_slice := some "global"
  , status := "ACTIVE", signals_count := some 2, signals_required := some 2
  , raw_values := some [mkRat 8 10, mkRat 7 10], details := none }

/-- `round(x, 3)` is the identity on values expressible in 3 decimals. -/
theorem pythonRound3_exact (x : ℚ) (n : ℤ) (h : x * 1000 = (n : ℚ)) :
    pythonRound3 x = (n : ℚ) / 1000 := by
  simp only [pythonRound3, roundHalfEven, h, Int.floor_intCast]
  rw [if_pos (by norm_num)]

theorem detect_tsB_stb01 : detectBehavior STB_01_DEF tsB = some stb01B := by
  have hact : active_signals STB_01_DEF tsB = [mkRat 85 100, mkRat 75 100] := by decide
  rw [detectBehavior_eq_of_ge STB_01_DEF tsB (by rw [hact]; decide)]
  rw [preRound_two STB_01_DEF tsB (by rw [hact]; rfl)]
  rw [hact, show ([mkRat 85 100, mkRat 75 100] : List ℚ).sum / 2 = mkRat 8 10 from by
    norm_num [Rat.mkRat_eq_div]]
  rw [pythonRound3_exact (mkRat 8 10) 800 (by norm_num [Rat.mkRat_eq_div])]
  rw [show ((800 : ℤ) : ℚ) / 1000 = mkRat 8 10 from by norm_num [Rat.mkRat_eq_div]]
  decide

theorem detect_tsB_stb02 : detectBehavior STB_02_DEF tsB = some stb02B := by
  have hact : active_signals STB_02_DEF tsB = [mkRat 8 10, mkRat 7 10] := by decide
  rw [detectBehavior_eq_of_ge STB_02_DEF tsB (by rw [hact]; decide)]
  rw [preRound_two STB_02_DEF tsB (by rw [hact]; rfl)]
  rw [hact, show ([mkRat 8 10, mkRat 7 10] : List ℚ).sum / 2 = mkRat 75 100 from by
    norm_num [Rat.mkRat_eq_div]]
  rw [pythonRound3_exact (mkRat 75 100) 750 (by norm_num [Rat.mkRat_eq_div])]
  rw [show ((750 : ℤ) : ℚ) / 1000 = mkRat 75 100 from by norm_num [Rat.mkRat_eq_div]]
  decide

theorem merged_tsB : mergedStage tsB = [stb01B, stb02B] := by
  unfold mergedStage rawBehaviors BEHAVIOR_DEFINITIONS
  simp only [List.filterMap_cons, List.filterMap_nil, detect_tsB_stb01, detect_tsB_stb02,
    show detectBehavior INT_01_DEF tsB = none from by decide,
    show detectBehavior INT_02_DEF tsB = none from by decide,
    show detectBehavior PSY_01_DEF tsB = none from by decide,
    show detectBehavior PSY_02_DEF tsB = none from by decide]
  decide

/-- C4 (witness): on `tsB`, stability holds a GLOBAL and a LAST_15_MIN
behaviour after the merge, and no GLOBAL stability behaviour survives. -/
theorem c4_recency_drops_global_witness :
    (stb02B ∈ mergedStage tsB ∧ stb02B.category = "stability" ∧
      stb02B.time_slice = some "global") ∧
    (stb01B ∈ mergedStage tsB ∧ stb01B.category = "stability" ∧
      stb01B.time_slice = some "last_15_min") ∧
    ∀ b ∈ (compute_behaviors tsB "t").behaviors, b.category = "stability" →
      b.time_slice ≠ some "global" :=
  ⟨⟨by rw [merged_tsB]; decide, by decide, by decide⟩,
   ⟨by rw [merged_tsB]; decide, by decide, by decide⟩,
   (c4_recency_drops_global tsB "t" "stability"
     ⟨stb02B, by rw [merged_tsB]; decide, by decide, by decide⟩
     ⟨stb01B, by rw [merged_tsB]; decide, by decide, by decide⟩).2⟩

-- =============================================================================
-- Pattern-loop lemmas (for C2)
-- =============================================================================

theorem behaviorRuleStep_cases (active : List String) (st : PatternState)
    (r : PatternRule) :
    behaviorRuleStep active st r = st ∨
    behaviorRuleStep active st r =
      { patterns := st.patterns ++ [mkPattern r "composite"]
      , used_codes := st.used_codes ++ r.codes
      , seen_pattern_codes := st.seen_pattern_codes ++ [r.pcode] } := by
  unfold behaviorRuleStep
  by_cases h1 : (!r.codes.all fun c => active.contains c) = true
  · rw [if_pos h1]
    exact Or.inl rfl
  · rw [if_neg h1]
    by_cases h2 : st.seen_pattern_codes.contains r.pcode = true
    · rw [if_pos h2]
      exact Or.inl rfl
    · rw [if_neg h2]
      by_cases h3 : r.codes.length = 3
      · rw [if_pos h3]
        exact Or.inr rfl
      · rw [if_neg h3]
        by_cases h4 : (r.codes.all fun c => st.used_codes.contains c) = true
        · rw [if_pos h4]
          exact Or.inl rfl
        · rw [if_neg h4]
          exact Or.inr rfl

theorem behaviorRuleStep_emit (active : List String) (st : PatternState)
    (r : PatternRule)
    (hsub : (r.codes.all fun c => active.contains c) = true)
    (hseen : st.seen_pattern_codes.contains r.pcode = false)
    (hok : r.codes.length = 3 ∨ (r.codes.all fun c => st.used_codes.contains c) = false) :
    behaviorRuleStep active st r =
      { patterns := st.patterns ++ [mkPattern r "composite"]
      , used_codes := st.used_codes ++ r.codes
      , seen_pattern_codes := st.seen_pattern_codes ++ [r.pcode] } := by
  unfold behaviorRuleStep
  rw [if_neg (by rw [hsub]; decide), if_neg (by rw [hseen]; decide)]
  by_cases h3 : r.codes.length = 3
  · rw [if_pos h3]
  · rw [if_neg h3]
    rcases hok with h | h4
    · exact absurd h h3
    · rw [if_neg (by rw [h4]; decide)]

theorem behaviorRuleStep_skip (active : List String) (st : PatternState)
    (r : PatternRule)
    (h : (r.codes.all fun c => active.contains c) = false ∨
         st.seen_pattern_codes.contains r.pcode = true ∨
         (r.codes.length ≠ 3 ∧ (r.codes.all fun c => st.used_codes.contains c) = true)) :
    behaviorRuleStep active st r = st := by
  unfold behaviorRuleStep
  rcases h with h1 | h2 | ⟨h3, h4⟩
  · rw [if_pos (by rw [h1]; decide)]
  · by_cases h1 : (!r.codes.all fun c => active.contains c) = true
    · rw [if_pos h1]
    · rw [if_neg h1, if_pos h2]
  · by_cases h1 : (!r.codes.all fun c => active.contains c) = true
    · rw [if_pos h1]
    · rw [if_neg h1]
      by_cases h2 : st.seen_pattern_codes.contains r.pcode = true
      · rw [if_pos h2]
      · rw [if_neg h2, if_neg h3, if_pos h4]

theorem visualRuleStep_cases (all_codes : List String) (st : PatternState)
    (r : PatternRule) :
    visualRuleStep all_codes st r = st ∨
    visualRuleStep all_codes st r =
      { patterns := st.patterns ++ [mkPattern r "composite_visual"]
      , used_codes := st.used_codes
      , seen_pattern_codes := st.seen_pattern_codes ++ [r.pcode] } := by
  unfold visualRuleStep
  by_cases h1 : (!r.codes.all fun c => all_codes.contains c) = true
  · rw [if_pos h1]
    exact Or.inl rfl
  · rw [if_neg h1]
    by_cases h2 : st.seen_pattern_codes.contains r.pcode = true
    · rw [if_pos h2]
      exact Or.inl rfl
    · rw [if_neg h2]
      exact Or.inr rfl

/-- A step either leaves the pattern list unchanged or appends one pattern
carrying the rule's pattern code. -/
def StepShape (step : PatternState → PatternRule → PatternState) : Prop :=
  ∀ st r, (step st r).patterns = st.patterns ∨
    (step st r).patterns = st.patterns ++ [mkPattern r "composite"] ∨
    (step st r).patterns = st.patterns ++ [mkPattern r "composite_visual"]

theorem behaviorRuleStep_shape (active : List String) :
    StepShape (behaviorRuleStep active) := by
  intro st r
  rcases behaviorRuleStep_cases active st r with h | h
  · rw [h]
    exact Or.inl rfl
  · rw [h]
    exact Or.inr (Or.inl rfl)

theorem visualRuleStep_shape (all_codes : List String) :
    StepShape (visualRuleStep all_codes) := by
  intro st r
  rcases visualRuleStep_cases all_codes st r with h | h
  · rw [h]
    exact Or.inl rfl
  · rw [h]
    exact Or.inr (Or.inr rfl)

theorem fold_step_origin {step : PatternState → PatternRule → PatternState}
    (hshape : StepShape step) (rules : List PatternRule) :
    ∀ (st : PatternState) (c : String),
      c ∈ ((rules.foldl step st).patterns.map (fun p => p.pattern_code)) →
      c ∈ (st.patterns.map (fun p => p.pattern_code)) ∨ ∃ r ∈ rules, r.pcode = c := by
  induction rules with
  | nil =>
    intro st c h
    exact Or.inl h
  | cons r rest ih =>
    intro st c h
    rw [List.foldl_cons] at h
    rcases ih (step st r) c h with hin | ⟨r', hr', hpc⟩
    · rcases hshape st r with he | he | he
      · rw [he] at hin
        exact Or.inl hin
      all_goals
        rw [he, List.map_append, List.mem_append] at hin
        rcases hin with h1 | h2
        · exact Or.inl h1
        · simp only [List.map_cons, List.map_nil, List.mem_singleton] at h2
          exact Or.inr ⟨r, by simp, h2.symm⟩
    · exact Or.inr ⟨r', List.mem_cons_of_mem _ hr', hpc⟩

theorem fold_step_mono {step : PatternState → PatternRule → PatternState}
    (hshape : StepShape step) (rules : List PatternRule) :
    ∀ (st : PatternState) (c : String),
      c ∈ (st.patterns.map (fun p => p.pattern_code)) →
      c ∈ ((rules.foldl step st).patterns.map (fun p => p.pattern_code)) := by
  induction rules with
  | nil =>
    intro st c h
    exact h
  | cons r rest ih =>
    intro st c h
    rw [List.foldl_cons]
    apply ih
    rcases hshape st r with he | he | he
    · rw [he]
      exact h
    all_goals
      rw [he, List.map_append]
      exact List.mem_append_left _ h

theorem fold_pcode_mem (active : List String) (r : PatternRule) :
    ∀ (pre : List PatternRule), ∀ (post : List PatternRule) (st : PatternState),
    (∀ r' ∈ pre, r'.pcode ≠ r.pcode) → (∀ r' ∈ post, r'.pcode ≠ r.pcode) →
    r.pcode ∉ st.patterns.map (fun p => p.pattern_code) →
    r.pcode ∉ st.seen_pattern_codes →
    (r.pcode ∈ (((pre ++ r :: post).foldl (behaviorRuleStep active) st).patterns.map
        (fun p => p.pattern_code)) ↔
      ((r.codes.all fun c => active.contains c) = true ∧
        (r.codes.length = 3 ∨
          (r.codes.all fun c =>
            (pre.foldl (behaviorRuleStep active) st).used_codes.contains c) = false))) := by
  intro pre
  induction pre with
  | nil =>
    intro post st hpre hpost hstp hsts
    simp only [List.nil_append, List.foldl_cons, List.foldl_nil]
    have hcontra : r.pcode ∈ ((post.foldl (behaviorRuleStep active) st).patterns.map
        (fun p => p.pattern_code)) → False := by
      intro hmem
      rcases fold_step_origin (behaviorRuleStep_shape active) post st _ hmem with h | ⟨r', hr', hpc⟩
      · exact hstp h
      · exact hpost r' hr' hpc
    constructor
    · intro hmem
      by_cases hsub : (r.codes.all fun c => active.contains c) = true
      · refine ⟨hsub, ?_⟩
        by_cases h3 : r.codes.length = 3
        · exact Or.inl h3
        · by_cases h4 : (r.codes.all fun c => st.used_codes.contains c) = true
          · exfalso
            rw [behaviorRuleStep_skip active st r (Or.inr (Or.inr ⟨h3, h4⟩))] at hmem
            exact hcontra hmem
          · exact Or.inr (Bool.eq_false_iff.mpr h4)
      · exfalso
        rw [behaviorRuleStep_skip active st r (Or.inl (Bool.eq_false_iff.mpr hsub))] at hmem
        exact hcontra hmem
    · rintro ⟨hsub, hok⟩
      have hseen : st.seen_pattern_codes.contains r.pcode = false := by
        apply Bool.eq_false_iff.mpr
        intro hc
        exact hsts (List.mem_of_elem_eq_true hc)
      rw [behaviorRuleStep_emit active st r hsub hseen hok]
      apply fold_step_mono (behaviorRuleStep_shape active) post
      rw [List.map_append, List.mem_append]
      right
      simp [mkPattern]
  | cons p pre' ih =>
    intro post st hpre hpost hstp hsts
    simp only [List.cons_append, List.foldl_cons]
    have hpne : p.pcode ≠ r.pcode := hpre p (by simp)
    have hstp' : r.pcode ∉ (behaviorRuleStep active st p).patterns.map
        (fun q => q.pattern_code) := by
      rcases behaviorRuleStep_cases active st p with he | he
      · rw [he]
        exact hstp
      · rw [he]
        simp only [List.map_append, List.mem_append, List.map_cons, List.map_nil,
          List.mem_singleton]
        rintro (h | h)
        · exact hstp h
        · exact hpne h.symm
    have hsts' : r.pcode ∉ (behaviorRuleStep active st p).seen_pattern_codes := by
      rcases behaviorRuleStep_cases active st p with he | he
      · rw [he]
        exact hsts
      · rw [he]
        simp only [List.mem_append, List.mem_singleton]
        rintro (h | h)
        · exact hsts h
        · exact hpne h.symm
    exact ih post (behaviorRuleStep active st p)
      (fun r' hr' => hpre r' (List.mem_cons_of_mem _ hr')) hpost hstp' hsts'

theorem mem_foldl_addIfAbsent (vs : List String) :
    ∀ (acc : List String) (c : String), c ∈ acc →
      c ∈ vs.foldl (fun acc2 v => addIfAbsent v acc2) acc := by
  induction vs with
  | nil =>
    intro acc c h
    exact h
  | cons v rest ih =>
    intro acc c h
    rw [List.foldl_cons]
    exact ih _ c (mem_addIfAbsent.mpr (Or.inr h))

theorem mem_allCodes {behaviors : List PatternBehavior}
    {vis : Option (List String)} {c : String}
    (h : c ∈ extract_active_codes behaviors) : c ∈ allCodes behaviors vis := by
  cases vis with
  | none => exact h
  | some vs =>
    show c ∈ (if vs = [] then extract_active_codes behaviors
      else vs.foldl (fun acc v => addIfAbsent v acc) (extract_active_codes behaviors))
    by_cases hvs : vs = []
    · rw [if_pos hvs]
      exact h
    · rw [if_neg hvs]
      exact mem_foldl_addIfAbsent vs _ c h

-- =============================================================================
-- C2
-- =============================================================================

/-- Three ACTIVE behaviours whose codes match three different 2-source
rules but no 3-source rule. -/
def c2ex : List PatternBehavior :=
  [⟨some "STB_01", some "ACTIVE"⟩, ⟨some "INT_01", some "ACTIVE"⟩,
   ⟨some "PSY_01", some "ACTIVE"⟩]

/-- C2 (counterexample): with actives {STB_01, INT_01, PSY_01} the
2-source rule PTN_11 = {STB_01, INT_01} has both codes present and no
3-source pattern is accepted (every emitted pattern has 2 sources), yet
PTN_11 is omitted — its codes were claimed by the earlier 2-source
patterns PTN_01 and PTN_08, not by any triple. -/
theorem c2_double_suppressed_without_triple :
    "STB_01" ∈ extract_active_codes c2ex ∧ "INT_01" ∈ extract_active_codes c2ex ∧
    (∀ p ∈ compute_patterns c2ex none, p.sources.length = 2) ∧
    "PTN_11" ∉ (compute_patterns c2ex none).map (fun p => p.pattern_code) := by
  decide

/-- C2 (amended): a 2-source behaviour rule whose two codes are both
active is omitted from the `compute_patterns` output exactly when every
one of its codes has already been claimed (`used_codes`) by a previously
accepted pattern — a 3-source pattern or an earlier-evaluated 2-source
pattern in the size-descending, code-ascending rule order — and is never
suppressed for any other reason. -/
theorem c2_double_suppressed_iff (behaviors : List PatternBehavior)
    (visual_signals : Option (List String)) (r : PatternRule)
    (pre post : List PatternRule)
    (hsplit : sortedBehaviorRules = pre ++ r :: post)
    (hlen2 : r.codes.length = 2)
    (hndc : r.codes.Nodup)
    (hpre : ∀ r' ∈ pre, r'.pcode ≠ r.pcode)
    (hpost : ∀ r' ∈ post, r'.pcode ≠ r.pcode)
    (hv2 : ∀ r' ∈ PATTERN_RULES_V2, r'.pcode ≠ r.pcode)
    (hpresent : ∀ c ∈ r.codes, c ∈ extract_active_codes behaviors) :
    (r.pcode ∈ (compute_patterns behaviors visual_signals).map
        (fun p => p.pattern_code) ↔
      ¬ ∀ c ∈ r.codes,
        c ∈ (pre.foldl (behaviorRuleStep (extract_active_codes behaviors))
          ⟨[], [], []⟩).used_codes) := by
  obtain ⟨c1, c2, hcodes⟩ : ∃ c1 c2, r.codes = [c1, c2] := by
    match hr : r.codes, hlen2 with
    | [c1, c2], _ => exact ⟨c1, c2, rfl⟩
  have hne : c1 ≠ c2 := by
    rw [hcodes, List.nodup_cons] at hndc
    simpa using hndc.1
  have h1 : c1 ∈ allCodes behaviors visual_signals :=
    mem_allCodes (hpresent c1 (by rw [hcodes]; simp))
  have h2 : c2 ∈ allCodes behaviors visual_signals :=
    mem_allCodes (hpresent c2 (by rw [hcodes]; simp))
  have hlenall : ¬ (allCodes behaviors visual_signals).length < 2 := by
    have := one_lt_length_of_mem_ne h1 h2 hne
    omega
  unfold compute_patterns
  rw [if_neg hlenall]
  have hbeh : (r.pcode ∈ ((behaviorPatternsState
      (extract_active_codes behaviors)).patterns.map (fun p => p.pattern_code)) ↔
      ¬ ∀ c ∈ r.codes,
        c ∈ (pre.foldl (behaviorRuleStep (extract_active_codes behaviors))
          ⟨[], [], []⟩).used_codes) := by
    unfold behaviorPatternsState
    rw [hsplit]
    rw [fold_pcode_mem (extract_active_codes behaviors) r pre post ⟨[], [], []⟩
      hpre hpost (by simp) (by simp)]
    constructor
    · rintro ⟨-, hok⟩
      rcases hok with h3 | h4
      · rw [hcodes] at h3
        simp at h3
      · intro hall
        have hthis : (r.codes.all fun c =>
            (pre.foldl (behaviorRuleStep (extract_active_codes behaviors))
              ⟨[], [], []⟩).used_codes.contains c) = true := by
          rw [List.all_eq_true]
          intro c hc
          exact List.elem_eq_true_of_mem (hall c hc)
        rw [hthis] at h4
        cases h4
    · intro hnall
      refine ⟨?_, Or.inr ?_⟩
      · rw [List.all_eq_true]
        intro c hc
        exact List.elem_eq_true_of_mem (hpresent c hc)
      · apply Bool.eq_false_iff.mpr
        intro hall
        apply hnall
        intro c hc
        exact List.mem_of_elem_eq_true ((List.all_eq_true.mp hall) c hc)
  cases visual_signals with
  | none => exact hbeh
  | some vs =>
    by_cases hvs : vs = []
    · show r.pcode ∈ ((if vs = [] then
          behaviorPatternsState (extract_active_codes behaviors)
        else sortedV2Rules.foldl (visualRuleStep (allCodes behaviors (some vs)))
          (behaviorPatternsState (extract_active_codes behaviors))).patterns.map
          (fun p => p.pattern_code)) ↔ _
      rw [if_pos hvs]
      exact hbeh
    · show r.pcode ∈ ((if vs = [] then
          behaviorPatternsState (extract_active_codes behaviors)
        else sortedV2Rules.foldl (visualRuleStep (allCodes behaviors (some vs)))
          (behaviorPatternsState (extract_active_codes behaviors))).patterns.map
          (fun p => p.pattern_code)) ↔ _
      rw [if_neg hvs]
      constructor
      · intro hmem
        rcases fold_step_origin (visualRuleStep_shape _) sortedV2Rules _ _ hmem with
          h | ⟨r', hr', hpc⟩
        · exact hbeh.mp h
        · exact absurd hpc
            (hv2 r' ((mem_stableSortLE ruleLE PATTERN_RULES_V2 r').mp hr'))
      · intro hr
        exact fold_step_mono (visualRuleStep_shape _) sortedV2Rules _ _ (hbeh.mpr hr)

/-- C2 (witness): with actives {STB_01, PSY_01} and no earlier accepted
pattern, PTN_01 is emitted. -/
theorem c2_double_suppressed_iff_witness :
    "PTN_01" ∈ (compute_patterns
      [⟨some "STB_01", some "ACTIVE"⟩, ⟨some "PSY_01", some "ACTIVE"⟩] none).map
        (fun p => p.pattern_code) :=
  (c2_double_suppressed_iff
    [⟨some "STB_01", some "ACTIVE"⟩, ⟨some "PSY_01", some "ACTIVE"⟩] none
    ⟨["STB_01", "PSY_01"], "PTN_01", "Perte de contrôle sous pression"⟩
    [⟨["STB_01", "PSY_01", "INT_02"], "PTN_03", "Désintégration complète"⟩,
     ⟨["STB_02", "INT_01", "PSY_02"], "PTN_07", "Contrôle total"⟩]
    [⟨["STB_01", "INT_02"], "PTN_02", "Effondrement par fatigue"⟩,
     ⟨["STB_02", "INT_01"], "PTN_04", "Domination tactique active"⟩,
     ⟨["STB_02", "PSY_02"], "PTN_05", "Résilience organisée"⟩,
     ⟨["INT_01", "PSY_02"], "PTN_06", "Pressing mental"⟩,
     ⟨["INT_01", "PSY_01"], "PTN_08", "Agressivité désordonnée"⟩,
     ⟨["INT_02", "PSY_01"], "PTN_09", "Déclin émotionnel"⟩,
     ⟨["INT_02", "PSY_02"], "PTN_10", "Résilience sous fatigue"⟩,
     ⟨["STB_01", "INT_01"], "PTN_11", "Chaos offensif"⟩,
     ⟨["STB_02", "INT_02"], "PTN_12", "Verrouillage défensif tardif"⟩]
    (by decide) (by decide) (by decide) (by decide) (by decide) (by decide)
    (by decide)).mpr (by decide)

-- =============================================================================
-- Contradiction lemmas (for C3)
-- =============================================================================

/-- Two codes form a registered contradiction pair (in either order). -/
def registeredContradictionPair (a b : String) : Prop :=
  ∃ p ∈ CONTRADICTION_PAIRS, (a = p.1 ∧ b = p.2) ∨ (a = p.2 ∧ b = p.1)

theorem contradicting_symm {a b : String}
    (h : are_behaviors_contradicting a b = true) :
    are_behaviors_contradicting b a = true := by
  unfold are_behaviors_contradicting at h ⊢
  rw [List.any_eq_true] at h ⊢
  obtain ⟨p, hp, hcond⟩ := h
  refine ⟨p, hp, ?_⟩
  rw [Bool.and_comm] at hcond
  exact hcond

theorem pair_contradicting {a b : String} (h : registeredContradictionPair a b) :
    are_behaviors_contradicting a b = true := by
  obtain ⟨p, hp, hcase⟩ := h
  unfold are_behaviors_contradicting
  rw [List.any_eq_true]
  refine ⟨p, hp, ?_⟩
  rcases hcase with ⟨h1, h2⟩ | ⟨h1, h2⟩ <;>
    simp [h1, h2]

theorem registeredPair_symm {a b : String} (h : registeredContradictionPair a b) :
    registeredContradictionPair b a := by
  obtain ⟨p, hp, hcase⟩ := h
  refine ⟨p, hp, ?_⟩
  rcases hcase with ⟨h1, h2⟩ | ⟨h1, h2⟩
  · exact Or.inr ⟨h2, h1⟩
  · exact Or.inl ⟨h2, h1⟩

theorem contradicting_ne_pair {a b : String}
    (h : are_behaviors_contradicting a b = true) (hne : a ≠ b) :
    registeredContradictionPair a b := by
  unfold are_behaviors_contradicting at h
  rw [List.any_eq_true] at h
  obtain ⟨p, hp, hcond⟩ := h
  rw [Bool.and_eq_true, Bool.or_eq_true, Bool.or_eq_true] at hcond
  obtain ⟨ha, hb⟩ := hcond
  refine ⟨p, hp, ?_⟩
  rcases ha with ha | ha <;> rcases hb with hb | hb <;>
    rw [beq_iff_eq] at ha hb
  · exact absurd (ha.trans hb.symm) hne
  · exact Or.inl ⟨ha, hb⟩
  · exact Or.inr ⟨ha, hb⟩
  · exact absurd (ha.trans hb.symm) hne

/-- The pairwise scan finds a contradiction exactly when two codes at
distinct positions contradict. -/
theorem anyContradiction_eq_true {cs : List String} :
    anyContradiction cs = true ↔
      ∃ pre c1 mid c2 post, cs = pre ++ c1 :: mid ++ c2 :: post ∧
        are_behaviors_contradicting c1 c2 = true := by
  induction cs with
  | nil =>
    simp only [anyContradiction, Bool.false_eq_true, false_iff]
    rintro ⟨pre, c1, mid, c2, post, heq, -⟩
    cases pre <;> simp at heq
  | cons a rest ih =>
    simp only [anyContradiction, Bool.or_eq_true, List.any_eq_true, ih]
    constructor
    · rintro (⟨c2, hc2, hcontr⟩ | ⟨pre, c1, mid, c2, post, heq, hcontr⟩)
      · rcases List.append_of_mem hc2 with ⟨mid, post, rfl⟩
        exact ⟨[], a, mid, c2, post, rfl, hcontr⟩
      · exact ⟨a :: pre, c1, mid, c2, post, by rw [heq]; rfl, hcontr⟩
    · rintro ⟨pre, c1, mid, c2, post, heq, hcontr⟩
      cases pre with
      | nil =>
        left
        rw [List.nil_append] at heq
        injection heq with h1 h2
        refine ⟨c2, ?_, h1 ▸ hcontr⟩
        rw [h2]
        exact List.mem_append_right mid (List.mem_cons_self _ _)
      | cons p pre' =>
        right
        rw [List.cons_append] at heq
        injection heq with h1 h2
        exact ⟨pre', c1, mid, c2, post, h2, hcontr⟩

theorem gatherInner_subset (a : String) (rest : List String) :
    ∀ (acc : List String) (c : String),
      c ∈ rest.foldl
        (fun acc2 b =>
          if are_behaviors_contradicting a b then addIfAbsent b (addIfAbsent a acc2)
          else acc2) acc →
      c ∈ acc ∨ c = a ∨ c ∈ rest := by
  induction rest with
  | nil =>
    intro acc c h
    exact Or.inl h
  | cons b bs ih =>
    intro acc c h
    rw [List.foldl_cons] at h
    rcases ih _ c h with hin | hc | hin
    · by_cases hcontr : are_behaviors_contradicting a b = true
      · rw [if_pos hcontr] at hin
        rcases mem_addIfAbsent.mp hin with rfl | hin2
        · exact Or.inr (Or.inr (by simp))
        · rcases mem_addIfAbsent.mp hin2 with rfl | hin3
          · exact Or.inr (Or.inl rfl)
          · exact Or.inl hin3
      · rw [if_neg hcontr] at hin
        exact Or.inl hin
    · exact Or.inr (Or.inl hc)
    · exact Or.inr (Or.inr (List.mem_cons_of_mem _ hin))

theorem gather_subset (cs : List String) :
    ∀ (acc : List String) (c : String),
      c ∈ gatherContradicting cs acc → c ∈ cs ∨ c ∈ acc := by
  induction cs with
  | nil =>
    intro acc c h
    exact Or.inr h
  | cons a rest ih =>
    intro acc c h
    rw [gatherContradicting] at h
    rcases ih _ c h with hin | hacc
    · exact Or.inl (List.mem_cons_of_mem _ hin)
    · rcases gatherInner_subset a rest acc c hacc with h1 | h2 | h3
      · exact Or.inr h1
      · exact Or.inl (h2 ▸ List.mem_cons_self _ _)
      · exact Or.inl (List.mem_cons_of_mem _ h3)

-- =============================================================================
-- Recency-stage facts (for C3)
-- =============================================================================

theorem recencyStage_status (ts : TimeSlices) :
    ∀ b ∈ recencyStage ts, b.status = "ACTIVE" :=
  fun _ hb => rawBehaviors_status (mem_merge_slices (mem_apply_recency hb))

theorem recencyStage_codes_nodup (ts : TimeSlices) :
    ((recencyStage ts).map (fun b => b.code)).Nodup :=
  nodup_of_subperm (subperm_map _ (apply_recency_subperm (mergedStage ts)))
    (merge_slices_codes_nodup (rawBehaviors ts))

theorem group_contradiction_exists {ts : TimeSlices} {k : String}
    {g : List DetectedBehavior}
    (hg : (k, g) ∈ groupByKey (fun x => x.category) (recencyStage ts))
    (hcontr : anyContradiction (g.map (fun x => x.code)) = true) :
    ∃ b1 ∈ recencyStage ts, ∃ b2 ∈ recencyStage ts,
      b1.category = k ∧ b2.category = k ∧
      registeredContradictionPair b1.code b2.code := by
  have hgf := groupByKey_filter _ _ hg
  have hnd : (g.map (fun x => x.code)).Nodup := by
    have hsub : List.Sublist g (recencyStage ts) := by
      rw [hgf]
      exact List.filter_sublist _
    exact (recencyStage_codes_nodup ts).sublist (hsub.map _)
  obtain ⟨pre, c1, mid, c2, post, heq, hpair⟩ := anyContradiction_eq_true.mp hcontr
  have hne : c1 ≠ c2 := by
    rw [heq, List.nodup_append] at hnd
    obtain ⟨-, -, hdisj⟩ := hnd
    intro hEq
    exact hdisj (List.mem_append_right pre (List.mem_cons_self c1 mid))
      (hEq ▸ List.mem_cons_self c2 post)
  have hc1 : c1 ∈ g.map (fun x => x.code) := by
    rw [heq]
    simp
  have hc2 : c2 ∈ g.map (fun x => x.code) := by
    rw [heq]
    simp
  obtain ⟨b1, hb1g, hb1c⟩ := List.mem_map.mp hc1
  obtain ⟨b2, hb2g, hb2c⟩ := List.mem_map.mp hc2
  have hmemstage : ∀ b ∈ g, b ∈ recencyStage ts ∧ b.category = k := by
    intro b hb
    rw [hgf] at hb
    have hmf := List.mem_filter.mp hb
    exact ⟨hmf.1, by simpa using hmf.2⟩
  refine ⟨b1, (hmemstage b1 hb1g).1, b2, (hmemstage b2 hb2g).1,
    (hmemstage b1 hb1g).2, (hmemstage b2 hb2g).2, ?_⟩
  rw [hb1c, hb2c]
  exact contradicting_ne_pair hpair hne

theorem contradiction_creates_ambiguous {ts : TimeSlices} {cat : String}
    {b1 b2 : DetectedBehavior}
    (hb1 : b1 ∈ recencyStage ts) (hb2 : b2 ∈ recencyStage ts)
    (hc1 : b1.category = cat) (hc2 : b2.category = cat)
    (hpair : registeredContradictionPair b1.code b2.code) :
    ∃ b ∈ resolvedStage ts, b.status = "AMBIGUOUS" ∧ b.category = cat := by
  have hcodene : b1.code ≠ b2.code := by
    obtain ⟨p, hp, hcase⟩ := hpair
    have hpne : p.1 ≠ p.2 := by
      have hall : ∀ q ∈ CONTRADICTION_PAIRS, q.1 ≠ q.2 := by decide
      exact hall p hp
    rcases hcase with ⟨h1, h2⟩ | ⟨h1, h2⟩
    · rw [h1, h2]
      exact hpne
    · rw [h1, h2]
      exact Ne.symm hpne
  have hne : b1 ≠ b2 := fun h => hcodene (by rw [h])
  have hb1g : b1 ∈ (recencyStage ts).filter (fun z => z.category == cat) :=
    List.mem_filter.mpr ⟨hb1, by simp [hc1]⟩
  have hb2g : b2 ∈ (recencyStage ts).filter (fun z => z.category == cat) :=
    List.mem_filter.mpr ⟨hb2, by simp [hc2]⟩
  have hgmem : (cat, (recencyStage ts).filter (fun z => z.category == cat)) ∈
      groupByKey (fun x => x.category) (recencyStage ts) := by
    have hself := groupByKey_mem_self (fun x => x.category) (recencyStage ts) hb1
    simpa [hc1] using hself
  have hlen : 1 < ((recencyStage ts).filter (fun z => z.category == cat)).length :=
    one_lt_length_of_mem_ne hb1g hb2g hne
  have hcontr : anyContradiction
      (((recencyStage ts).filter (fun z => z.category == cat)).map
        (fun x => x.code)) = true := by
    rcases pair_split_of_mem hb1g hb2g hne with ⟨s, m, t, hsp⟩ | ⟨s, m, t, hsp⟩
    · apply anyContradiction_eq_true.mpr
      refine ⟨s.map (fun x => x.code), b1.code, m.map (fun x => x.code), b2.code,
        t.map (fun x => x.code), ?_, pair_contradicting hpair⟩
      rw [hsp]
      simp
    · apply anyContradiction_eq_true.mpr
      refine ⟨s.map (fun x => x.code), b2.code, m.map (fun x => x.code), b1.code,
        t.map (fun x => x.code), ?_, pair_contradicting (registeredPair_symm hpair)⟩
      rw [hsp]
      simp
  show ∃ b ∈ resolve_contradictions (recencyStage ts),
    b.status = "AMBIGUOUS" ∧ b.category = cat
  have hmem := resolve_creates_ambiguous hgmem hlen hcontr
  exact ⟨_, hmem, rfl, rfl⟩

-- =============================================================================
-- C3
-- =============================================================================

/-- C3: an AMBIGUOUS entry for a category appears in the
`compute_behaviors` output iff, after the recency stage, two behaviours of
that same category remain whose codes form a registered contradiction
pair; such an entry's code is `AMBIGU_` plus the first three letters of
its category uppercased, and every code it subsumes belongs to a
post-recency behaviour of that same category (never a second one). -/
theorem c3_ambiguous_iff (ts : TimeSlices) (t : String) (cat : String) :
    ((∃ b ∈ (compute_behaviors ts t).behaviors,
        b.status = "AMBIGUOUS" ∧ b.category = cat) ↔
      (∃ b1 ∈ recencyStage ts, ∃ b2 ∈ recencyStage ts,
        b1.category = cat ∧ b2.category = cat ∧
        registeredContradictionPair b1.code b2.code)) ∧
    (∀ b ∈ (compute_behaviors ts t).behaviors, b.status = "AMBIGUOUS" →
      b.code = "AMBIGU_" ++ (b.category.take 3).toUpper ∧
      ∃ l, b.details = some l ∧ ∀ c ∈ l,
        ∃ b' ∈ recencyStage ts, b'.code = c ∧ b'.category = b.category) := by
  constructor
  · constructor
    · rintro ⟨b, hb, hstat, hcat⟩
      rw [compute_behaviors_behaviors] at hb
      have hb1 : b ∈ resolvedStage ts := mem_sort_by_priority.mp hb
      rcases mem_resolve_contradictions hb1 with hmem | ⟨g, hg, _, hcontr, -⟩
      · have hact := recencyStage_status ts b hmem
        rw [hact] at hstat
        exact absurd hstat (by decide)
      · rw [hcat] at hg
        exact group_contradiction_exists hg hcontr
    · rintro ⟨b1, hb1, b2, hb2, hc1, hc2, hpair⟩
      obtain ⟨b, hbmem, hstat, hcat⟩ :=
        contradiction_creates_ambiguous hb1 hb2 hc1 hc2 hpair
      refine ⟨b, ?_, hstat, hcat⟩
      rw [compute_behaviors_behaviors]
      exact mem_sort_by_priority.mpr hbmem
  · intro b hb hstat
    rw [compute_behaviors_behaviors] at hb
    have hb1 : b ∈ resolvedStage ts := mem_sort_by_priority.mp hb
    rcases mem_resolve_contradictions hb1 with hmem | ⟨g, hg, _, _, hamb⟩
    · have hact := recencyStage_status ts b hmem
      rw [hact] at hstat
      exact absurd hstat (by decide)
    · constructor
      · rw [hamb]
        rfl
      · refine ⟨gatherContradicting (g.map (fun x => x.code)) [],
          by rw [hamb]; rfl, ?_⟩
        intro c hc
        rcases gather_subset _ [] c hc with hin | hin
        · obtain ⟨b', hb'g, hb'c⟩ := List.mem_map.mp hin
          have hgf := groupByKey_filter _ _ hg
          rw [hgf] at hb'g
          have hmf := List.mem_filter.mp hb'g
          exact ⟨b', hmf.1, hb'c, by simpa using hmf.2⟩
        · cases hin

/-- The psychology-contradiction example used by the C3 witness: all four
psychology signals fire in the last 15 minutes, so PSY_01 and PSY_02 are
both detected and both survive the recency stage. -/
def tsC : TimeSlices :=
  [("last_15_min",
    [("fouls_spike", mkRat 9 10), ("protest_pattern", mkRat 8 10),
     ("high_defensive_recovery", mkRat 7 10), ("late_pressing_effort", mkRat 95 100)])]

/-- The behaviour detected for PSY_01 on `tsC`. -/
def psy01C : DetectedBehavior :=
  { code := "PSY_01", label := "Frustration Active"
  , label_en := "Active Frustration", category := "psychology"
  , intensity := some (mkRat 85 100), time_slice := some "last_15_min"
  , status := "ACTIVE", signals_count := some 2, signals_required := some 2
  , raw_values := some [mkRat 9 10, mkRat 8 10], details := none }

/-- The behaviour detected for PSY_02 on `tsC`. -/
def psy02C : DetectedBehavior :=
  { code := "PSY_02", label := "Résilience"
  , label_en := "Resilience", category := "psychology"
  , intensity := some (mkRat 825 1000), time_slice := some "last_15_min"
  , status := "ACTIVE", signals_count := some 2, signals_required := some 2
  , raw_values := some [mkRat 7 10, mkRat 95 100], details := none }

theorem detect_tsC_psy01 : detectBehavior PSY_01_DEF tsC = some psy01C := by
  have hact : active_signals PSY_01_DEF tsC = [mkRat 9 10, mkRat 8 10] := by decide
  rw [detectBehavior_eq_of_ge PSY_01_DEF tsC (by rw [hact]; decide)]
  rw [preRound_two PSY_01_DEF tsC (by rw [hact]; rfl)]
  rw [hact, show ([mkRat 9 10, mkRat 8 10] : List ℚ).sum / 2 = mkRat 85 100 from by
    norm_num [Rat.mkRat_eq_div]]
  rw [pythonRound3_exact (mkRat 85 100) 850 (by norm_num [Rat.mkRat_eq_div])]
  rw [show ((850 : ℤ) : ℚ) / 1000 = mkRat 85 100 from by norm_num [Rat.mkRat_eq_div]]
  decide

theorem detect_tsC_psy02 : detectBehavior PSY_02_DEF tsC = some psy02C := by
  have hact : active_signals PSY_02_DEF tsC = [mkRat 7 10, mkRat 95 100] := by decide
  rw [detectBehavior_eq_of_ge PSY_02_DEF tsC (by rw [hact]; decide)]
  rw [preRound_two PSY_02_DEF tsC (by rw [hact]; rfl)]
  rw [hact, show ([mkRat 7 10, mkRat 95 100] : List ℚ).sum / 2 = mkRat 825 1000 from by
    norm_num [Rat.mkRat_eq_div]]
  rw [pythonRound3_exact (mkRat 825 1000) 825 (by norm_num [Rat.mkRat_eq_div])]
  rw [show ((825 : ℤ) : ℚ) / 1000 = mkRat 825 1000 from by norm_num [Rat.mkRat_eq_div]]
  decide

theorem recency_tsC : recencyStage tsC = [psy01C, psy02C] := by
  unfold recencyStage mergedStage rawBehaviors BEHAVIOR_DEFINITIONS
  simp only [List.filterMap_cons, List.filterMap_nil, detect_tsC_psy01, detect_tsC_psy02,
    show detectBehavior STB_01_DEF tsC = none from by decide,
    show detectBehavior STB_02_DEF tsC = none from by decide,
    show detectBehavior INT_01_DEF tsC = none from by decide,
    show detectBehavior INT_02_DEF tsC = none from by decide]
  decide

/-- C3 (witness): on `tsC` both psychology behaviours survive the recency
stage with the registered contradicting pair PSY_01 / PSY_02, so an
AMBIGUOUS psychology entry appears in the output of `compute_behaviors`. -/
theorem c3_ambiguous_iff_witness :
    ∃ b ∈ (compute_behaviors tsC "t").behaviors,
      b.status = "AMBIGUOUS" ∧ b.category = "psychology" :=
  (c3_ambiguous_iff tsC "t" "psychology").1.mpr
    ⟨psy01C, by rw [recency_tsC]; decide,
     psy02C, by rw [recency_tsC]; decide,
     rfl, rfl,
     ⟨("PSY_01", "PSY_02"), by decide, Or.inl ⟨rfl, rfl⟩⟩⟩

-- =============================================================================
-- C9: label deduplication across the whole reconstructed sequence
-- =============================================================================

/-- Every label a GLOBAL-slice phase derivation can carry: the six `global`
entries of `PHASE_LABELS` and the global default. -/
def globalVocab : List String :=
  ["Fragilité structurelle", "Contrôle tactique", "Intensité active",
   "Fatigue précoce", "Tension émotionnelle", "Résilience mentale",
   DEFAULT_GLOBAL_LABEL]

/-- Every label a LAST_15_MIN-slice phase derivation can carry: the six
`last_15_min` entries of `PHASE_LABELS`, the final default and the
rupture label. -/
def finalVocab : List String :=
  ["Effondrement défensif final", "Verrouillage tardif", "Pressing final",
   "Déclin physique final", "Frustration finale", "Résistance finale",
   DEFAULT_LAST15_LABEL, RUPTURE_LABEL]

theorem lookup_pair_mem {k : String × String} {v : String}
    {l : List ((String × String) × String)}
    (h : List.lookup k l = some v) : (k, v) ∈ l := by
  induction l with
  | nil => simp [List.lookup] at h
  | cons p rest ih =>
    obtain ⟨k1, v1⟩ := p
    by_cases hk : k = k1
    · subst hk
      simp only [List.lookup, beq_self_eq_true] at h
      cases h
      exact List.mem_cons_self _ _
    · have hbeq : (k == k1) = false := beq_eq_false_iff_ne.mpr hk
      simp only [List.lookup, hbeq] at h
      exact List.mem_cons_of_mem _ (ih h)

theorem labelFor_global_mem (code : String) :
    labelFor code "global" ∈ globalVocab := by
  unfold labelFor phaseLabelLookup
  cases hl : List.lookup (code, "global") PHASE_LABELS with
  | none => decide
  | some l =>
    show l ∈ globalVocab
    have hall : ∀ p ∈ PHASE_LABELS, p.1.2 = "global" → p.2 ∈ globalVocab := by decide
    exact hall _ (lookup_pair_mem hl) rfl

theorem labelFor_last15_mem (code : String) :
    labelFor code "last_15_min" ∈ finalVocab := by
  unfold labelFor phaseLabelLookup
  cases hl : List.lookup (code, "last_15_min") PHASE_LABELS with
  | none => decide
  | some l =>
    show l ∈ finalVocab
    have hall : ∀ p ∈ PHASE_LABELS, p.1.2 = "last_15_min" → p.2 ∈ finalVocab := by decide
    exact hall _ (lookup_pair_mem hl) rfl

theorem getD_last15_mem (code : String) :
    (phaseLabelLookup code "last_15_min").getD DEFAULT_LAST15_LABEL ∈ finalVocab := by
  unfold phaseLabelLookup
  cases hl : List.lookup (code, "last_15_min") PHASE_LABELS with
  | none => decide
  | some l =>
    show l ∈ finalVocab
    have hall : ∀ p ∈ PHASE_LABELS, p.1.2 = "last_15_min" → p.2 ∈ finalVocab := by decide
    exact hall _ (lookup_pair_mem hl) rfl

theorem buildPhasesAux_cons (slice : String) (b : FlowBehavior)
    (rest : List FlowBehavior) (seen : List String) :
    buildPhasesAux slice (b :: rest) seen =
      if seen.contains (labelFor (b.code.getD "") slice) then
        buildPhasesAux slice rest seen
      else
        labelFor (b.code.getD "") slice ::
          buildPhasesAux slice rest (seen ++ [labelFor (b.code.getD "") slice]) := rfl

theorem buildRuptureRest_cons (b : FlowBehavior) (rest : List FlowBehavior)
    (seen : List String) :
    buildRuptureRest (b :: rest) seen =
      if RUPTURE_CODES.contains (b.code.getD "") && seen.contains RUPTURE_LABEL then
        buildRuptureRest rest seen
      else if seen.contains
          ((phaseLabelLookup (b.code.getD "") "last_15_min").getD DEFAULT_LAST15_LABEL) then
        buildRuptureRest rest seen
      else
        (phaseLabelLookup (b.code.getD "") "last_15_min").getD DEFAULT_LAST15_LABEL ::
          buildRuptureRest rest
            (seen ++ [(phaseLabelLookup (b.code.getD "") "last_15_min").getD
              DEFAULT_LAST15_LABEL]) := rfl

theorem mem_buildPhasesAux {slice x : String} :
    ∀ (l : List FlowBehavior) (seen : List String),
      x ∈ buildPhasesAux slice l seen →
        (∃ b ∈ l, x = labelFor (b.code.getD "") slice) ∧ x ∉ seen := by
  intro l
  induction l with
  | nil => intro seen h; cases h
  | cons b rest ih =>
    intro seen h
    rw [buildPhasesAux_cons] at h
    by_cases hc : seen.contains (labelFor (b.code.getD "") slice) = true
    · rw [if_pos hc] at h
      obtain ⟨⟨b1, hb1, hx⟩, hns⟩ := ih seen h
      exact ⟨⟨b1, List.mem_cons_of_mem _ hb1, hx⟩, hns⟩
    · rw [if_neg hc] at h
      rcases List.mem_cons.mp h with hx | h2
      · refine ⟨⟨b, List.mem_cons_self _ _, hx⟩, fun hxs => ?_⟩
        rw [hx] at hxs
        exact hc (List.elem_eq_true_of_mem hxs)
      · obtain ⟨⟨b1, hb1, hx⟩, hns⟩ := ih _ h2
        exact ⟨⟨b1, List.mem_cons_of_mem _ hb1, hx⟩,
          fun hxs => hns (List.mem_append_left _ hxs)⟩

theorem buildPhasesAux_nodup (slice : String) :
    ∀ (l : List FlowBehavior) (seen : List String),
      (buildPhasesAux slice l seen).Nodup := by
  intro l
  induction l with
  | nil => intro seen; exact List.nodup_nil
  | cons b rest ih =>
    intro seen
    rw [buildPhasesAux_cons]
    by_cases hc : seen.contains (labelFor (b.code.getD "") slice) = true
    · rw [if_pos hc]; exact ih _
    · rw [if_neg hc]
      refine List.nodup_cons.mpr ⟨fun hmem => ?_, ih _⟩
      exact (mem_buildPhasesAux rest _ hmem).2
        (List.mem_append_right _ (List.mem_singleton.mpr rfl))

theorem mem_buildRuptureRest {x : String} :
    ∀ (l : List FlowBehavior) (seen : List String),
      x ∈ buildRuptureRest l seen →
        (∃ b ∈ l, x = (phaseLabelLookup (b.code.getD "") "last_15_min").getD
          DEFAULT_LAST15_LABEL) ∧ x ∉ seen := by
  intro l
  induction l with
  | nil => intro seen h; cases h
  | cons b rest ih =>
    intro seen h
    rw [buildRuptureRest_cons] at h
    by_cases h1 : (RUPTURE_CODES.contains (b.code.getD "") &&
        seen.contains RUPTURE_LABEL) = true
    · rw [if_pos h1] at h
      obtain ⟨⟨b1, hb1, hx⟩, hns⟩ := ih seen h
      exact ⟨⟨b1, List.mem_cons_of_mem _ hb1, hx⟩, hns⟩
    · rw [if_neg h1] at h
      by_cases h2 : seen.contains
          ((phaseLabelLookup (b.code.getD "") "last_15_min").getD
            DEFAULT_LAST15_LABEL) = true
      · rw [if_pos h2] at h
        obtain ⟨⟨b1, hb1, hx⟩, hns⟩ := ih seen h
        exact ⟨⟨b1, List.mem_cons_of_mem _ hb1, hx⟩, hns⟩
      · rw [if_neg h2] at h
        rcases List.mem_cons.mp h with hx | h3
        · refine ⟨⟨b, List.mem_cons_self _ _, hx⟩, fun hxs => ?_⟩
          rw [hx] at hxs
          exact h2 (List.elem_eq_true_of_mem hxs)
        · obtain ⟨⟨b1, hb1, hx⟩, hns⟩ := ih _ h3
          exact ⟨⟨b1, List.mem_cons_of_mem _ hb1, hx⟩,
            fun hxs => hns (List.mem_append_left _ hxs)⟩

theorem buildRuptureRest_nodup :
    ∀ (l : List FlowBehavior) (seen : List String),
      (buildRuptureRest l seen).Nodup := by
  intro l
  induction l with
  | nil => intro seen; exact List.nodup_nil
  | cons b rest ih =>
    intro seen
    rw [buildRuptureRest_cons]
    by_cases h1 : (RUPTURE_CODES.contains (b.code.getD "") &&
        seen.contains RUPTURE_LABEL) = true
    · rw [if_pos h1]; exact ih _
    · rw [if_neg h1]
      by_cases h2 : seen.contains
          ((phaseLabelLookup (b.code.getD "") "last_15_min").getD
            DEFAULT_LAST15_LABEL) = true
      · rw [if_pos h2]; exact ih _
      · rw [if_neg h2]
        refine List.nodup_cons.mpr ⟨fun hmem => ?_, ih _⟩
        exact (mem_buildRuptureRest rest _ hmem).2
          (List.mem_append_right _ (List.mem_singleton.mpr rfl))

theorem build_phases_nodup (behaviors : List FlowBehavior) (slice : String) :
    (build_phases behaviors slice).Nodup := by
  unfold build_phases
  split
  · exact List.nodup_nil
  · exact buildPhasesAux_nodup slice _ []

theorem build_phases_global_vocab {behaviors : List FlowBehavior} {x : String}
    (h : x ∈ build_phases behaviors "global") : x ∈ globalVocab := by
  unfold build_phases at h
  split at h
  · cases h
  · obtain ⟨⟨b, -, hx⟩, -⟩ := mem_buildPhasesAux _ _ h
    rw [hx]
    exact labelFor_global_mem _

theorem build_phases_last15_vocab {behaviors : List FlowBehavior} {x : String}
    (h : x ∈ build_phases behaviors "last_15_min") : x ∈ finalVocab := by
  unfold build_phases at h
  split at h
  · cases h
  · obtain ⟨⟨b, -, hx⟩, -⟩ := mem_buildPhasesAux _ _ h
    rw [hx]
    exact labelFor_last15_mem _

theorem build_phases_with_rupture_eq (l : List FlowBehavior) :
    build_phases_with_rupture l =
      if ruptureSetComplete (ruptureCodesFound (flowSort l)) then
        RUPTURE_LABEL :: buildRuptureRest (flowSort l) [RUPTURE_LABEL]
      else buildRuptureRest (flowSort l) [] := rfl

theorem build_phases_with_rupture_vocab {l : List FlowBehavior} {x : String}
    (h : x ∈ build_phases_with_rupture l) : x ∈ finalVocab := by
  rw [build_phases_with_rupture_eq] at h
  split at h
  · rcases List.mem_cons.mp h with hx | h2
    · rw [hx]; decide
    · obtain ⟨⟨b, -, hx⟩, -⟩ := mem_buildRuptureRest _ _ h2
      rw [hx]
      exact getD_last15_mem _
  · obtain ⟨⟨b, -, hx⟩, -⟩ := mem_buildRuptureRest _ _ h
    rw [hx]
    exact getD_last15_mem _

theorem build_phases_with_rupture_nodup (l : List FlowBehavior) :
    (build_phases_with_rupture l).Nodup := by
  rw [build_phases_with_rupture_eq]
  split
  · refine List.nodup_cons.mpr ⟨fun hmem => ?_, buildRuptureRest_nodup _ _⟩
    exact (mem_buildRuptureRest _ _ hmem).2 (List.mem_singleton.mpr rfl)
  · exact buildRuptureRest_nodup _ _

theorem derivedPhases_eq (behaviors : List FlowBehavior) :
    derivedPhases behaviors =
      build_phases (globalGroup behaviors) "global" ++
        (if RUPTURE_CODES.all (fun c => (last15Codes behaviors).contains c) then
          build_phases_with_rupture (last15Group behaviors)
        else build_phases (last15Group behaviors) "last_15_min") := rfl

theorem vocab_disjoint : ∀ x ∈ globalVocab, x ∉ finalVocab := by decide

theorem derivedPhases_nodup (behaviors : List FlowBehavior) :
    (derivedPhases behaviors).Nodup := by
  rw [derivedPhases_eq]
  refine List.Nodup.append (build_phases_nodup _ _) ?_ ?_
  · split
    · exact build_phases_with_rupture_nodup _
    · exact build_phases_nodup _ _
  · intro x hx hx2
    have hg := build_phases_global_vocab hx
    have hf : x ∈ finalVocab := by
      split at hx2
      · exact build_phases_with_rupture_vocab hx2
      · exact build_phases_last15_vocab hx2
    exact vocab_disjoint x hg hf

theorem padToMin_nodup {phases : List String} (h : phases.Nodup) :
    (padToMin phases).Nodup := by
  unfold padToMin
  by_cases h1 : phases.length < MIN_PHASES
  · rw [if_pos h1]
    by_cases h2 : phases.contains DEFAULT_LAST15_LABEL = true
    · rw [if_pos h2]
      refine List.nodup_cons.mpr ⟨fun hG => ?_, h⟩
      have hL : DEFAULT_LAST15_LABEL ∈ phases := List.mem_of_elem_eq_true h2
      have hlt := one_lt_length_of_mem_ne hG hL (by decide)
      have hm : MIN_PHASES = 2 := rfl
      rw [hm] at h1
      omega
    · rw [if_neg h2]
      refine List.Nodup.append h (List.nodup_singleton _) ?_
      intro x hx hxL
      rw [List.mem_singleton] at hxL
      rw [hxL] at hx
      exact h2 (List.elem_eq_true_of_mem hx)
  · rw [if_neg h1]
    exact h

theorem truncToMax_nodup {phases : List String} (h : phases.Nodup) :
    (truncToMax phases).Nodup := by
  unfold truncToMax
  split
  · exact List.Nodup.sublist (List.take_sublist _ _) h
  · exact h

theorem apply_limits_nodup {phases : List String} (h : phases.Nodup) :
    (apply_limits phases).Nodup := by
  unfold apply_limits
  split
  · decide
  · exact truncToMax_nodup (padToMin_nodup h)

/-- C9: the reconstructed phase sequence never repeats a label text: the
clamped label list is duplicate-free for every input behaviour list —
across the GLOBAL-derived and LAST_15_MIN-derived groups, the padding
defaults and the rupture label — and the i-th returned phase is exactly
that i-th label behind its numbering prefix. -/
theorem c9_labels_nodup (behaviors : List FlowBehavior) :
    (phaseSequence behaviors).Nodup ∧
    ∀ i : Nat, (reconstruct behaviors)[i]? =
      ((phaseSequence behaviors)[i]?).map
        (fun l => "Phase " ++ toString (i + 1) ++ " : " ++ l) := by
  constructor
  · exact apply_limits_nodup (derivedPhases_nodup behaviors)
  · intro i
    unfold reconstruct numberPhases
    rw [List.getElem?_map, List.getElem?_enum]
    cases (phaseSequence behaviors)[i]? <;> rfl

-- =============================================================================
-- C7: the rupture collapse and its truncation caveat
-- =============================================================================

theorem ruptureFold_keep {c : String} :
    ∀ (l : List FlowBehavior) (acc : List String), c ∈ acc →
      c ∈ l.foldl (fun acc2 b =>
        if RUPTURE_CODES.contains (b.code.getD "") then addIfAbsent (b.code.getD "") acc2
        else acc2) acc := by
  intro l
  induction l with
  | nil => intro acc h; exact h
  | cons a rest ih =>
    intro acc h
    rw [List.foldl_cons]
    apply ih
    split
    · exact mem_addIfAbsent.mpr (Or.inr h)
    · exact h

theorem ruptureFold_mem {b : FlowBehavior} :
    ∀ (l : List FlowBehavior) (acc : List String), b ∈ l →
      RUPTURE_CODES.contains (b.code.getD "") = true →
      b.code.getD "" ∈ l.foldl (fun acc2 x =>
        if RUPTURE_CODES.contains (x.code.getD "") then addIfAbsent (x.code.getD "") acc2
        else acc2) acc := by
  intro l
  induction l with
  | nil => intro acc h; intro hr; cases h
  | cons a rest ih =>
    intro acc h hr
    rw [List.foldl_cons]
    rcases List.mem_cons.mp h with heq | h2
    · subst heq
      apply ruptureFold_keep rest
      rw [if_pos hr]
      exact mem_addIfAbsent.mpr (Or.inl rfl)
    · exact ih _ h2 hr

theorem ruptureFold_sub :
    ∀ (l : List FlowBehavior) (acc : List String),
      (∀ c ∈ acc, RUPTURE_CODES.contains c = true) →
      ∀ c ∈ l.foldl (fun acc2 x =>
        if RUPTURE_CODES.contains (x.code.getD "") then addIfAbsent (x.code.getD "") acc2
        else acc2) acc, RUPTURE_CODES.contains c = true := by
  intro l
  induction l with
  | nil => intro acc hacc c hc; exact hacc c hc
  | cons a rest ih =>
    intro acc hacc c hc
    rw [List.foldl_cons] at hc
    refine ih _ ?_ c hc
    intro d hd
    by_cases hra : RUPTURE_CODES.contains (a.code.getD "") = true
    · rw [if_pos hra] at hd
      rcases mem_addIfAbsent.mp hd with heq | hd2
      · rw [heq]
        exact hra
      · exact hacc d hd2
    · rw [if_neg hra] at hd
      exact hacc d hd

theorem ruptureSetComplete_of {l : List FlowBehavior}
    (hs : ∃ b ∈ l, b.code = some "STB_01")
    (hi : ∃ b ∈ l, b.code = some "INT_02") :
    ruptureSetComplete (ruptureCodesFound l) = true := by
  obtain ⟨bs, hbs, hcs⟩ := hs
  obtain ⟨bi, hbi, hci⟩ := hi
  have h1 : "STB_01" ∈ ruptureCodesFound l := by
    have h := ruptureFold_mem l [] hbs (by rw [hcs]; decide)
    rw [hcs] at h
    exact h
  have h2 : "INT_02" ∈ ruptureCodesFound l := by
    have h := ruptureFold_mem l [] hbi (by rw [hci]; decide)
    rw [hci] at h
    exact h
  have hsub : ∀ c ∈ ruptureCodesFound l, RUPTURE_CODES.contains c = true :=
    ruptureFold_sub l [] (fun c hc => absurd hc (List.not_mem_nil c))
  unfold ruptureSetComplete
  rw [Bool.and_eq_true]
  constructor
  · rw [List.all_eq_true]
    intro c hc
    rcases List.mem_cons.mp hc with heq | hc2
    · rw [heq]
      exact List.elem_eq_true_of_mem h1
    · rcases List.mem_cons.mp hc2 with heq | hc3
      · rw [heq]
        exact List.elem_eq_true_of_mem h2
      · cases hc3
  · rw [List.all_eq_true]
    intro c hc
    exact hsub c hc

theorem foldl_code_keep {c : String} :
    ∀ (l : List FlowBehavior) (acc : List String), c ∈ acc →
      c ∈ l.foldl (fun acc2 x => addIfAbsent (x.code.getD "") acc2) acc := by
  intro l
  induction l with
  | nil => intro acc h; exact h
  | cons a rest ih =>
    intro acc h
    rw [List.foldl_cons]
    exact ih _ (mem_addIfAbsent.mpr (Or.inr h))

theorem foldl_code_mem {b : FlowBehavior} :
    ∀ (l : List FlowBehavior) (acc : List String), b ∈ l →
      b.code.getD "" ∈ l.foldl (fun acc2 x => addIfAbsent (x.code.getD "") acc2) acc := by
  intro l
  induction l with
  | nil => intro acc h; cases h
  | cons a rest ih =>
    intro acc h
    rw [List.foldl_cons]
    rcases List.mem_cons.mp h with heq | h2
    · subst heq
      exact foldl_code_keep rest _ (mem_addIfAbsent.mpr (Or.inl rfl))
    · exact ih _ h2

theorem mem_last15Codes {behaviors : List FlowBehavior} {b : FlowBehavior}
    (hb : b ∈ last15Group behaviors) :
    b.code.getD "" ∈ last15Codes behaviors :=
  foldl_code_mem _ _ hb

theorem isFlowKept_of {b : FlowBehavior} {c : String}
    (hc : b.code = some c) (hst : b.status = some "ACTIVE")
    (hnc : strStartsWith c "AMBIGU" = false) : isFlowKept b = true := by
  unfold isFlowKept
  rw [hc, hst]
  rw [Bool.and_eq_true]
  refine ⟨by decide, ?_⟩
  rw [show (some c).getD "" = c from rfl, hnc]
  decide

theorem mem_last15Group {behaviors : List FlowBehavior} {b : FlowBehavior}
    (hb : b ∈ behaviors) (hk : isFlowKept b = true)
    (hts : b.time_slice = some "last_15_min") :
    b ∈ last15Group behaviors := by
  refine List.mem_filter.mpr ⟨hb, ?_⟩
  rw [Bool.and_eq_true]
  refine ⟨hk, ?_⟩
  rw [hts]
  decide

theorem last15_label_code {code lab : String}
    (h : (phaseLabelLookup code "last_15_min").getD DEFAULT_LAST15_LABEL = lab)
    (hlab : lab = "Effondrement défensif final" ∨ lab = "Déclin physique final") :
    RUPTURE_CODES.contains code = true := by
  unfold phaseLabelLookup at h
  cases hl : List.lookup (code, "last_15_min") PHASE_LABELS with
  | none =>
    rw [hl] at h
    have hd : DEFAULT_LAST15_LABEL = lab := h
    rcases hlab with rfl | rfl <;> exact absurd hd (by decide)
  | some l =>
    rw [hl] at h
    have h2 : l = lab := h
    have hall : ∀ p ∈ PHASE_LABELS,
        (p.2 = "Effondrement défensif final" ∨ p.2 = "Déclin physique final") →
        RUPTURE_CODES.contains p.1.1 = true := by decide
    exact hall ((code, "last_15_min"), l) (lookup_pair_mem hl) (by rw [h2]; exact hlab)

theorem mem_buildRuptureRest_of_seen {x : String} :
    ∀ (l : List FlowBehavior) (seen : List String), RUPTURE_LABEL ∈ seen →
      x ∈ buildRuptureRest l seen →
      ∃ b ∈ l, RUPTURE_CODES.contains (b.code.getD "") = false ∧
        x = (phaseLabelLookup (b.code.getD "") "last_15_min").getD DEFAULT_LAST15_LABEL := by
  intro l
  induction l with
  | nil => intro seen hseen h; cases h
  | cons a rest ih =>
    intro seen hseen h
    rw [buildRuptureRest_cons] at h
    have hsr : seen.contains RUPTURE_LABEL = true := List.elem_eq_true_of_mem hseen
    by_cases h1 : (RUPTURE_CODES.contains (a.code.getD "") &&
        seen.contains RUPTURE_LABEL) = true
    · rw [if_pos h1] at h
      obtain ⟨b, hb, hcf, hx⟩ := ih seen hseen h
      exact ⟨b, List.mem_cons_of_mem _ hb, hcf, hx⟩
    · rw [if_neg h1] at h
      have hra : RUPTURE_CODES.contains (a.code.getD "") = false := by
        cases hcc : RUPTURE_CODES.contains (a.code.getD "") with
        | false => rfl
        | true => exact absurd (by rw [hcc, hsr]; rfl) h1
      by_cases h2 : seen.contains
          ((phaseLabelLookup (a.code.getD "") "last_15_min").getD
            DEFAULT_LAST15_LABEL) = true
      · rw [if_pos h2] at h
        obtain ⟨b, hb, hcf, hx⟩ := ih seen hseen h
        exact ⟨b, List.mem_cons_of_mem _ hb, hcf, hx⟩
      · rw [if_neg h2] at h
        rcases List.mem_cons.mp h with hx | h3
        · exact ⟨a, List.mem_cons_self _ _, hra, hx⟩
        · obtain ⟨b, hb, hcf, hx⟩ := ih _ (List.mem_append_left _ hseen) h3
          exact ⟨b, List.mem_cons_of_mem _ hb, hcf, hx⟩

theorem buildRuptureRest_covers :
    ∀ (l : List FlowBehavior) (seen : List String), ∀ b ∈ l,
      RUPTURE_CODES.contains (b.code.getD "") = false →
      (phaseLabelLookup (b.code.getD "") "last_15_min").getD DEFAULT_LAST15_LABEL
          ∈ buildRuptureRest l seen ∨
        (phaseLabelLookup (b.code.getD "") "last_15_min").getD DEFAULT_LAST15_LABEL
          ∈ seen := by
  intro l
  induction l with
  | nil => intro seen b hb; cases hb
  | cons a rest ih =>
    intro seen b hb hcf
    rw [buildRuptureRest_cons]
    by_cases h1 : (RUPTURE_CODES.contains (a.code.getD "") &&
        seen.contains RUPTURE_LABEL) = true
    · rw [if_pos h1]
      rcases List.mem_cons.mp hb with heq | h2
      · rw [heq] at hcf
        rw [(Bool.and_eq_true _ _).mp h1 |>.1] at hcf
        cases hcf
      · exact ih seen b h2 hcf
    · rw [if_neg h1]
      by_cases h2 : seen.contains
          ((phaseLabelLookup (a.code.getD "") "last_15_min").getD
            DEFAULT_LAST15_LABEL) = true
      · rw [if_pos h2]
        rcases List.mem_cons.mp hb with heq | h3
        · rw [heq]
          exact Or.inr (List.mem_of_elem_eq_true h2)
        · exact ih seen b h3 hcf
      · rw [if_neg h2]
        rcases List.mem_cons.mp hb with heq | h3
        · rw [heq]
          exact Or.inl (List.mem_cons_self _ _)
        · rcases ih (seen ++ [(phaseLabelLookup (a.code.getD "") "last_15_min").getD
            DEFAULT_LAST15_LABEL]) b h3 hcf with hin | hin
          · exact Or.inl (List.mem_cons_of_mem _ hin)
          · rcases List.mem_append.mp hin with hin2 | hin2
            · exact Or.inr hin2
            · rw [List.mem_singleton] at hin2
              rw [hin2]
              exact Or.inl (List.mem_cons_self _ _)

theorem padToMin_mem {x : String} {phases : List String} (h : x ∈ phases) :
    x ∈ padToMin phases := by
  unfold padToMin
  split
  · split
    · exact List.mem_cons_of_mem _ h
    · exact List.mem_append_left _ h
  · exact h

theorem padToMin_length_le {phases : List String}
    (h : phases.length ≤ MAX_PHASES) :
    (padToMin phases).length ≤ MAX_PHASES := by
  unfold padToMin
  have hM : MAX_PHASES = 5 := rfl
  by_cases h1 : phases.length < MIN_PHASES
  · rw [if_pos h1]
    have hm : MIN_PHASES = 2 := rfl
    rw [hm] at h1
    split
    · rw [List.length_cons, hM]
      omega
    · rw [List.length_append, List.length_singleton, hM]
      omega
  · rw [if_neg h1]
    exact h

theorem truncToMax_id {phases : List String} (h : phases.length ≤ MAX_PHASES) :
    truncToMax phases = phases := by
  unfold truncToMax
  rw [if_neg (by omega)]

/-- C7 (amended): when both rupture codes are ACTIVE in the last 15
minutes, the LAST_15_MIN phase derivation opens with a single
`Rupture structurelle` phase, the individual labels of STB_01 and INT_02
are absent, every other kept last-15 behaviour still contributes its own
label, and the rupture phase survives the `[2, 5]` clamp whenever the
derived list is within the 5-phase cap. -/
theorem c7_rupture_collapse (behaviors : List FlowBehavior)
    (hs : ∃ b ∈ behaviors, b.code = some "STB_01" ∧ b.status = some "ACTIVE" ∧
      b.time_slice = some "last_15_min")
    (hi : ∃ b ∈ behaviors, b.code = some "INT_02" ∧ b.status = some "ACTIVE" ∧
      b.time_slice = some "last_15_min") :
    derivedPhases behaviors =
      build_phases (globalGroup behaviors) "global" ++
        build_phases_with_rupture (last15Group behaviors) ∧
    (build_phases_with_rupture (last15Group behaviors)).head? = some RUPTURE_LABEL ∧
    (build_phases_with_rupture (last15Group behaviors)).count RUPTURE_LABEL = 1 ∧
    "Effondrement défensif final" ∉ build_phases_with_rupture (last15Group behaviors) ∧
    "Déclin physique final" ∉ build_phases_with_rupture (last15Group behaviors) ∧
    (∀ b ∈ last15Group behaviors, RUPTURE_CODES.contains (b.code.getD "") = false →
      (phaseLabelLookup (b.code.getD "") "last_15_min").getD DEFAULT_LAST15_LABEL ∈
        build_phases_with_rupture (last15Group behaviors)) ∧
    ((derivedPhases behaviors).length ≤ MAX_PHASES →
      RUPTURE_LABEL ∈ phaseSequence behaviors) := by
  obtain ⟨bs, hbs, hcs, hss, hts⟩ := hs
  obtain ⟨bi, hbi, hci, hsi, hti⟩ := hi
  have hbsG : bs ∈ last15Group behaviors :=
    mem_last15Group hbs (isFlowKept_of hcs hss (by decide)) hts
  have hbiG : bi ∈ last15Group behaviors :=
    mem_last15Group hbi (isFlowKept_of hci hsi (by decide)) hti
  have hbsS : bs ∈ flowSort (last15Group behaviors) :=
    (mem_stableSortLE _ _ _).mpr hbsG
  have hbiS : bi ∈ flowSort (last15Group behaviors) :=
    (mem_stableSortLE _ _ _).mpr hbiG
  have hcomplete : ruptureSetComplete
      (ruptureCodesFound (flowSort (last15Group behaviors))) = true :=
    ruptureSetComplete_of ⟨bs, hbsS, hcs⟩ ⟨bi, hbiS, hci⟩
  have hrupt_eq : build_phases_with_rupture (last15Group behaviors) =
      RUPTURE_LABEL ::
        buildRuptureRest (flowSort (last15Group behaviors)) [RUPTURE_LABEL] := by
    rw [build_phases_with_rupture_eq, if_pos hcomplete]
  have h1 : "STB_01" ∈ last15Codes behaviors := by
    have h := mem_last15Codes hbsG
    rw [hcs] at h
    exact h
  have h2 : "INT_02" ∈ last15Codes behaviors := by
    have h := mem_last15Codes hbiG
    rw [hci] at h
    exact h
  have hasRupture :
      (RUPTURE_CODES.all (fun c => (last15Codes behaviors).contains c)) = true := by
    rw [List.all_eq_true]
    intro c hc
    rcases List.mem_cons.mp hc with heq | hc2
    · rw [heq]
      exact List.elem_eq_true_of_mem h1
    · rcases List.mem_cons.mp hc2 with heq | hc3
      · rw [heq]
        exact List.elem_eq_true_of_mem h2
      · cases hc3
  have hnotin : RUPTURE_LABEL ∉
      buildRuptureRest (flowSort (last15Group behaviors)) [RUPTURE_LABEL] :=
    fun hmem => (mem_buildRuptureRest _ _ hmem).2 (List.mem_singleton.mpr rfl)
  have habsent : ∀ lab : String,
      (lab = "Effondrement défensif final" ∨ lab = "Déclin physique final") →
      lab ∉ build_phases_with_rupture (last15Group behaviors) := by
    intro lab hlab hmem
    rw [hrupt_eq] at hmem
    rcases List.mem_cons.mp hmem with heq | h3
    · rcases hlab with rfl | rfl <;> exact absurd heq (by decide)
    · obtain ⟨b, -, hcf, hx⟩ :=
        mem_buildRuptureRest_of_seen _ _ (List.mem_singleton.mpr rfl) h3
      have := last15_label_code hx.symm hlab
      rw [hcf] at this
      cases this
  refine ⟨by rw [derivedPhases_eq, if_pos hasRupture], by rw [hrupt_eq]; rfl, ?_,
    habsent _ (Or.inl rfl), habsent _ (Or.inr rfl), ?_, ?_⟩
  · rw [hrupt_eq, List.count_cons_self, List.count_eq_zero.mpr hnotin]
  · intro b hbmem hcf
    have h := buildRuptureRest_covers (flowSort (last15Group behaviors))
      [RUPTURE_LABEL] b ((mem_stableSortLE _ _ _).mpr hbmem) hcf
    rw [hrupt_eq]
    rcases h with h | h
    · exact List.mem_cons_of_mem _ h
    · rw [List.mem_singleton] at h
      rw [h]
      exact List.mem_cons_self _ _
  · intro hlen
    have hR : RUPTURE_LABEL ∈ derivedPhases behaviors := by
      rw [derivedPhases_eq, if_pos hasRupture]
      refine List.mem_append_right _ ?_
      rw [hrupt_eq]
      exact List.mem_cons_self _ _
    have hne : derivedPhases behaviors ≠ [] := by
      intro h
      rw [h] at hR
      cases hR
    unfold phaseSequence apply_limits
    rw [if_neg hne, truncToMax_id (padToMin_length_le hlen)]
    exact padToMin_mem hR

/-- The dual-window example refuting the unconditional form of C7: five
GLOBAL-derived phases push the rupture phase past the 5-phase cap. -/
def ex7 : List FlowBehavior :=
  [⟨some "STB_02", some "ACTIVE", some "global", some "stability"⟩,
   ⟨some "XXX_01", some "ACTIVE", some "global", some "stability"⟩,
   ⟨some "INT_01", some "ACTIVE", some "global", some "intensity"⟩,
   ⟨some "PSY_01", some "ACTIVE", some "global", some "psychology"⟩,
   ⟨some "PSY_02", some "ACTIVE", some "global", some "psychology"⟩,
   ⟨some "STB_01", some "ACTIVE", some "last_15_min", some "stability"⟩,
   ⟨some "INT_02", some "ACTIVE", some "last_15_min", some "intensity"⟩]

/-- C7 (counterexample): on `ex7` both rupture codes are ACTIVE in the
last 15 minutes, yet no reconstructed phase is labelled
`Rupture structurelle` — the clamp truncates it away. -/
theorem c7_rupture_can_be_truncated :
    (∃ b ∈ ex7, b.code = some "STB_01" ∧ b.status = some "ACTIVE" ∧
      b.time_slice = some "last_15_min") ∧
    (∃ b ∈ ex7, b.code = some "INT_02" ∧ b.status = some "ACTIVE" ∧
      b.time_slice = some "last_15_min") ∧
    RUPTURE_LABEL ∉ phaseSequence ex7 ∧
    reconstruct ex7 =
      ["Phase 1 : Contrôle tactique", "Phase 2 : Phase de stabilisation",
       "Phase 3 : Intensité active", "Phase 4 : Tension émotionnelle",
       "Phase 5 : Résilience mentale"] := by
  decide

/-- The last-15-only example instantiating the amended C7 theorem. -/
def ex7b : List FlowBehavior :=
  [⟨some "STB_01", some "ACTIVE", some "last_15_min", some "stability"⟩,
   ⟨some "INT_02", some "ACTIVE", some "last_15_min", some "intensity"⟩,
   ⟨some "PSY_01", some "ACTIVE", some "last_15_min", some "psychology"⟩]

/-- C7 (witness): on `ex7b` the rupture label appears exactly once in the
final phase group and survives the clamp into the phase sequence. -/
theorem c7_rupture_collapse_witness :
    (build_phases_with_rupture (last15Group ex7b)).count RUPTURE_LABEL = 1 ∧
      RUPTURE_LABEL ∈ phaseSequence ex7b :=
  ⟨(c7_rupture_collapse ex7b
      ⟨⟨some "STB_01", some "ACTIVE", some "last_15_min", some "stability"⟩,
        by decide, rfl, rfl, rfl⟩
      ⟨⟨some "INT_02", some "ACTIVE", some "last_15_min", some "intensity"⟩,
        by decide, rfl, rfl, rfl⟩).2.2.1,
   (c7_rupture_collapse ex7b
      ⟨⟨some "STB_01", some "ACTIVE", some "last_15_min", some "stability"⟩,
        by decide, rfl, rfl, rfl⟩
      ⟨⟨some "INT_02", some "ACTIVE", some "last_15_min", some "intensity"⟩,
        by decide, rfl, rfl, rfl⟩).2.2.2.2.2.2 (by decide)⟩

end MagScore

